import Mathlib

/-!
Verification of the Gmail-mirroring sync engine (gmail_integration app).

The definitions below are shallow embeddings of the Python source:

* `parse_email_body`, `extract_attachment_metadata`, `has_attachments_of`
  embed `gmail_integration/utils/gmail_api.py` (MIME payload walking);
* `extract_email_and_name` embeds the sender-parsing regex
  `(.+?)\s*<(.+?)>` together with Python `str.strip` semantics;
* `get_or_create_contact`, `save_email_to_db` embed the contact resolver
  and the persistence/upsert layer over an explicit database state;
* `get_threads_for_user` embeds the thread-aggregation query of
  `gmail_integration/services.py`;
* `sync_all_emails` embeds the multi-account orchestrator loop;
* `get_gmail_service` embeds the credential-refresh path of
  `gmail_integration/utils/gmail_auth.py`.

Machine-level details that the verified properties do not depend on are
abstracted as explicit parameters: base64url/UTF-8 decoding is a string
transformation parameter `decode` (the properties hold for every decoder),
and network effects (attachment download, token refresh, per-account fetch
outcomes) are `Option`-valued environment functions.
-/

namespace GmailApp

/-! ## MIME payload model

A Gmail API payload is a JSON tree.  `PBody` models the `body` dict
(`data`, `attachmentId`, `size` keys, each possibly absent); `Payload`
models a payload/part dict with `mimeType`, `filename`, optional `body`
and optional `parts` list.  An absent `parts` key is `none`; a present
key holds the list. -/

structure PBody where
  data : Option String
  attachmentId : Option String
  size : Option Nat
deriving Repr, DecidableEq

inductive Payload : Type where
  | mk : String → String → Option PBody → Option (List Payload) → Payload

def Payload.mimeType : Payload → String
  | .mk m _ _ _ => m

def Payload.filename : Payload → String
  | .mk _ f _ _ => f

def Payload.pbody : Payload → Option PBody
  | .mk _ _ b _ => b

def Payload.parts : Payload → Option (List Payload)
  | .mk _ _ _ ps => ps

/-- Inline body data of a part: the `data` key of its `body` dict, when
both the `body` dict and the `data` key are present
(`'data' in part.get('body', \x7b\x7d)` in the source). -/
def Payload.inlineData (p : Payload) : Option String :=
  match p.pbody with
  | some b => b.data
  | none => none

/-! ### parse_email_body

Faithful embedding of `parse_email_body` from `utils/gmail_api.py`.
`decode` stands for `decode_base64` (base64url decode with auto padding,
UTF-8 with errors ignored); it is a parameter because every property we
prove holds for an arbitrary decoder.

The source first handles a simple inline body on the payload itself, then
iterates over `parts`: a `text/plain` part with data overwrites the text
body unconditionally, a `text/html` part with data overwrites the html
body unconditionally, and a part that has sub-parts is walked recursively
with the nested result filling only a still-empty body. -/

mutual

def parse_email_body (decode : String → String) : Payload → String × String
  | .mk mimeType _fn pbody parts =>
    let init : String × String :=
      match pbody with
      | some b =>
        match b.data with
        | some d => if mimeType = "text/html" then ("", decode d) else (decode d, "")
        | none => ("", "")
      | none => ("", "")
    match parts with
    | some ps => parseParts decode init ps
    | none => init

/-- Loop body of the `for part in payload['parts']` loop in
`parse_email_body`, threading the `(body_text, body_html)` accumulator. -/
def parseParts (decode : String → String) (acc : String × String) :
    List Payload → String × String
  | [] => acc
  | p :: rest =>
    let acc' : String × String :=
      match p.inlineData with
      | some d =>
        if p.mimeType = "text/plain" then (decode d, acc.2)
        else if p.mimeType = "text/html" then (acc.1, decode d)
        else if (p.parts).isSome then
          let n := parse_email_body decode p
          (if acc.1 = "" then n.1 else acc.1, if acc.2 = "" then n.2 else acc.2)
        else acc
      | none =>
        if (p.parts).isSome then
          let n := parse_email_body decode p
          (if acc.1 = "" then n.1 else acc.1, if acc.2 = "" then n.2 else acc.2)
        else acc
    parseParts decode acc' rest

end

/-- Accumulator update performed by one iteration of the parts loop of
`parse_email_body`; definitionally equal to the loop body of
`parseParts`. -/
def partStep (decode : String → String) (acc : String × String)
    (p : Payload) : String × String :=
  match p.inlineData with
  | some d =>
    if p.mimeType = "text/plain" then (decode d, acc.2)
    else if p.mimeType = "text/html" then (acc.1, decode d)
    else if (p.parts).isSome then
      let n := parse_email_body decode p
      (if acc.1 = "" then n.1 else acc.1, if acc.2 = "" then n.2 else acc.2)
    else acc
  | none =>
    if (p.parts).isSome then
      let n := parse_email_body decode p
      (if acc.1 = "" then n.1 else acc.1, if acc.2 = "" then n.2 else acc.2)
    else acc

/-! ### Attachment metadata -/

structure AttachmentMeta where
  attachment_id : String
  filename : String
  mime_type : String
  size : Nat
deriving Repr, DecidableEq

/-- Metadata entry contributed by a single part on its own (the body of the
`if filename and 'body' in part:` block of `process_parts`): requires a
non-empty filename, a present `body` dict and a truthy `attachmentId`. -/
def ownEntry (p : Payload) : List AttachmentMeta :=
  match p.pbody with
  | some b =>
    if p.filename ≠ "" then
      match b.attachmentId with
      | some aid =>
        if aid ≠ "" then
          [⟨aid, p.filename, p.mimeType, b.size.getD 0⟩]
        else []
      | none => []
    else []
  | none => []

/-- Embedding of the inner `process_parts` recursion of
`extract_attachment_metadata`: each part contributes its own entry, then
its sub-parts are walked recursively, then the loop continues. -/
def processParts : List Payload → List AttachmentMeta
  | [] => []
  | .mk mt fn b ps :: rest =>
    ownEntry (.mk mt fn b ps) ++
      (match ps with
       | some sub => processParts sub
       | none => []) ++
      processParts rest
termination_by l => sizeOf l

/-- Recursive search over a parts tree, mirroring the walk of
`process_parts`: true when some part (at any depth) satisfies `P`. -/
def anyPart (P : Payload → Bool) : List Payload → Bool
  | [] => false
  | .mk mt fn b ps :: rest =>
    P (.mk mt fn b ps) ||
      (match ps with
       | some sub => anyPart P sub
       | none => false) ||
      anyPart P rest
termination_by l => sizeOf l

/-- Inline data of the last direct part in a list whose MIME type is `mt`
and whose `body` dict carries a `data` key.  This identifies the sibling
whose decoded data the `parse_email_body` loop keeps for that kind. -/
def lastDataOf (mt : String) : List Payload → Option String
  | [] => none
  | p :: rest =>
    match lastDataOf mt rest with
    | some d => some d
    | none => if p.mimeType = mt then p.inlineData else none

/-- Embedding of `extract_attachment_metadata`. -/
def extract_attachment_metadata (p : Payload) : List AttachmentMeta :=
  match p.parts with
  | some ps => processParts ps
  | none => []

/-- Embedding of the `has_attachments` computation in `parse_email_message`:
`any(part.get('filename') for part in payload.get('parts', []) if part.get('filename'))`,
i.e. true exactly when some top-level part carries a non-empty filename. -/
def has_attachments_of (p : Payload) : Bool :=
  ((p.parts).getD []).any (fun q => q.filename ≠ "")

/-! ## Sender parsing

Embedding of `extract_email_and_name` from `utils/gmail_api.py`:

* `None` or empty input returns `("", "")`;
* otherwise Python runs `re.match(r'(.+?)\s*<(.+?)>', email_str)`;
  on a match it returns `(group2.strip(), group1.strip().strip('"'))`,
  otherwise `(email_str.strip(), '')`.

The regex is modelled by an executable backtracking matcher with Python's
lazy-quantifier semantics: group 1 is the shortest non-empty newline-free
prefix, then a run of whitespace, a literal opening angle bracket, then
group 2 is the shortest non-empty newline-free run up to a closing angle
bracket.  Whitespace is Python's Unicode whitespace predicate, used both
by backslash-s in `re` and by `str.strip()`; `isSpace` lists that set of
code points exhaustively. -/

def isSpace (c : Char) : Bool :=
  (0x09 ≤ c.toNat && c.toNat ≤ 0x0d) || c.toNat = 0x20 ||
  (0x1c ≤ c.toNat && c.toNat ≤ 0x1f) || c.toNat = 0x85 || c.toNat = 0xa0 ||
  c.toNat = 0x1680 || (0x2000 ≤ c.toNat && c.toNat ≤ 0x200a) ||
  c.toNat = 0x2028 || c.toNat = 0x2029 || c.toNat = 0x202f ||
  c.toNat = 0x205f || c.toNat = 0x3000

/-- Python `str.strip()` on a character list: remove leading and trailing
whitespace (the same Unicode whitespace set as `isSpace`). -/
def pyStrip (cs : List Char) : List Char :=
  ((cs.dropWhile isSpace).reverse.dropWhile isSpace).reverse

/-- Python `str.strip('"')` on a character list: remove leading and
trailing runs of double-quote characters. -/
def stripQuotes (cs : List Char) : List Char :=
  ((cs.dropWhile (· = '"')).reverse.dropWhile (· = '"')).reverse

def pyStripStr (s : String) : String := String.mk (pyStrip s.data)

/-- Matching of the lazy group `(.+?)` followed by the literal closing
angle bracket: the shortest non-empty newline-free prefix of `cs` that is
followed by a closing angle bracket.  Fails when no closing bracket
exists or a newline occurs before the first one. -/
def group2Of (cs : List Char) : Option (List Char) :=
  match cs with
  | [] => none
  | c0 :: rest =>
    let pre := rest.takeWhile (· ≠ '>')
    if c0 = '\n' ∨ '\n' ∈ pre then none
    else if pre.length = rest.length then none
    else some (c0 :: pre)

/-- Backtracking loop for the anchored match of `(.+?)\s*<(.+?)>`:
`g1rev` holds the (reversed) group-1 candidate consumed so far; each step
extends it by one character (group 1 is lazy, so shorter candidates are
tried first) and tests whether a whitespace run followed by an opening
angle bracket and a valid group 2 comes next.  A newline can never be
part of group 1, so the search stops there. -/
def regexGo (g1rev : List Char) : List Char → Option (List Char × List Char)
  | [] => none
  | c :: rest =>
    if c = '\n' then none
    else
      match rest.dropWhile isSpace with
      | br :: tail =>
        if br = '<' then
          match group2Of tail with
          | some g2 => some ((c :: g1rev).reverse, g2)
          | none => regexGo (c :: g1rev) rest
        else regexGo (c :: g1rev) rest
      | [] => regexGo (c :: g1rev) rest

/-- Portion of a bracketed input's display-name segment that the lazy
group 1 actually consumes: the segment minus its trailing whitespace run —
except that when the whole segment is whitespace, group 1 (which must be
non-empty) consumes exactly its first character. -/
def g1TakenOf (n : List Char) : List Char :=
  if n.all isSpace then n.take 1
  else (n.reverse.dropWhile isSpace).reverse

/-- Embedding of `extract_email_and_name`.  The `Option String` input
models Python's `None`-or-string argument; the result is
`(email_address, display_name)`. -/
def extract_email_and_name (s : Option String) : String × String :=
  match s with
  | none => ("", "")
  | some str =>
    if str = "" then ("", "")
    else
      match regexGo [] str.data with
      | some (g1, g2) => (String.mk (pyStrip g2), String.mk (stripQuotes (pyStrip g1)))
      | none => (pyStripStr str, "")

/-! ## Contact resolver and persistence layer

The relational store is modelled explicitly.  A `Contact` row has the
unique address key and a display name; `get_or_create_contact` embeds the
function of the same name in `utils/gmail_api.py`: Django
`get_or_create(email=..., defaults=...)` does an exact-match lookup on the
address, creates the row if absent, and on a hit with a non-empty new name
and an empty stored name backfills the stored name in place.  The returned
contact is identified by its address (the unique key). -/

structure Contact where
  email : String
  name : String
deriving Repr, DecidableEq

/-- Persisting `contact.name = name; contact.save()`: the object returned
by `get_or_create` is the first row matching the address, so the name
update is written to that row. -/
def updateNameFirst : List Contact → String → String → List Contact
  | [], _, _ => []
  | c :: rest, a, n =>
    if c.email = a then ⟨c.email, n⟩ :: rest
    else c :: updateNameFirst rest a n

def get_or_create_contact (db : List Contact) (email_addr : String)
    (nm : String) : Option String × List Contact :=
  if email_addr = "" then (none, db)
  else
    match db.find? (fun c => c.email = email_addr) with
    | some c =>
      if nm ≠ "" ∧ c.name = "" then
        (some email_addr, updateNameFirst db email_addr nm)
      else (some email_addr, db)
    | none => (some email_addr, db ++ [⟨email_addr, nm⟩])

/-! ### Email rows and the database state -/

structure EmailRow where
  gmail_id : String
  thread_id : String
  subject : String
  date : Nat
  snippet : String
  body_text : String
  body_html : String
  labels : List String
  is_read : Bool
  has_attachments : Bool
  account_email : String
  account_link : Option String
  sender_contact : Option String
deriving Repr, DecidableEq

structure AttachmentRow where
  email_gmail_id : String
  gmail_attachment_id : String
  filename : String
  mime_type : String
  size_bytes : Nat
deriving Repr, DecidableEq

/-- Database state: contact rows, email rows, the many-to-many recipient
relation as (message gmail id, contact address) links, attachment rows,
and the GmailToken table projected to its `email_account` column in
primary-key order.  Audit timestamps (`created_at`, `updated_at`) are not
modelled. -/
@[ext]
structure DB where
  contacts : List Contact
  emails : List EmailRow
  recipients : List (String × String)
  attachments : List AttachmentRow
  tokens : List String
deriving Repr, DecidableEq

/-- Parsed email data as produced by `parse_email_message` and consumed by
`save_email_to_db` (the keys of the returned dict, plus the
`account_email` key added by the fetch loop). -/
structure EmailData where
  gmail_id : String
  thread_id : String
  subject : String
  sender_email : String
  sender_name : String
  recipient_list : List String
  cc_list : List String
  bcc_list : List String
  date : Nat
  snippet : String
  body_text : String
  body_html : String
  labels : List String
  is_read : Bool
  has_attachments : Bool
  attachments_metadata : List AttachmentMeta
  account_email : String
deriving Repr, DecidableEq

/-- Deduplication performed by `set(all_recipients)`, modelled as
first-occurrence-order deduplication (the properties proved below do not
depend on the iteration order of a Python set). -/
def pyDedup (l : List String) : List String :=
  l.foldl (fun acc x => if x ∈ acc then acc else acc ++ [x]) []

/-- Recipient-contact loop of `save_email_to_db`:
`for email_addr in set(all_recipients): c = get_or_create_contact(email_addr)`,
collecting the non-`None` contacts. -/
def resolveRecipients (contacts : List Contact) :
    List String → List String × List Contact
  | [] => ([], contacts)
  | a :: rest =>
    let r := get_or_create_contact contacts a ""
    let tail := resolveRecipients r.2 rest
    (match r.1 with
     | some k => k :: tail.1
     | none => tail.1, tail.2)

/-- Row written by `Email.objects.update_or_create(gmail_id=..., defaults=...)`:
every model field is in `defaults`, so the created row and the updated row
coincide. -/
def rowOf (d : EmailData) (senderKey : Option String)
    (accountLink : Option String) : EmailRow :=
  ⟨d.gmail_id, d.thread_id, d.subject, d.date, d.snippet, d.body_text,
   d.body_html, d.labels, d.is_read, d.has_attachments, d.account_email,
   accountLink, senderKey⟩

/-- Attachment loop of `save_email_to_db`: for each metadata entry, skip
when a row with the same (message, attachment id) already exists
(re-querying the live table each iteration), otherwise attempt the
download (`dl`, returning the bytes or `None`) and create the row only on
success.  The stored file contents are not modelled beyond download
success. -/
def ingestAttachments (atts : List AttachmentRow) (gid : String)
    (dl : String → String → Option (List Nat)) :
    List AttachmentMeta → List AttachmentRow
  | [] => atts
  | m :: rest =>
    let already := atts.any (fun a =>
      a.email_gmail_id = gid ∧ a.gmail_attachment_id = m.attachment_id)
    let atts' :=
      if already then atts
      else
        match dl gid m.attachment_id with
        | some _bytes =>
          atts ++ [⟨gid, m.attachment_id, m.filename, m.mime_type, m.size⟩]
        | none => atts
    ingestAttachments atts' gid dl rest

/-- Embedding of `save_email_to_db`.  `service` is `None` or the
attachment-download environment; returns the new database state and the
`created` flag. -/
def save_email_to_db (db : DB) (d : EmailData)
    (service : Option (String → String → Option (List Nat))) : DB × Bool :=
  let s1 := get_or_create_contact db.contacts d.sender_email d.sender_name
  let accountLink := db.tokens.find? (fun t => t = d.account_email)
  let row := rowOf d s1.1 accountLink
  let present := db.emails.any (fun e => e.gmail_id = d.gmail_id)
  let emails1 :=
    if present then
      db.emails.map (fun e => if e.gmail_id = d.gmail_id then row else e)
    else db.emails ++ [row]
  let all_recipients := d.recipient_list ++ d.cc_list ++ d.bcc_list
  let r := resolveRecipients s1.2 (pyDedup all_recipients)
  let recips1 :=
    if all_recipients ≠ [] then
      (db.recipients.filter (fun pr => pr.1 ≠ d.gmail_id)) ++
        r.1.map (fun k => (d.gmail_id, k))
    else db.recipients
  let atts1 :=
    match service with
    | some dl => ingestAttachments db.attachments d.gmail_id dl d.attachments_metadata
    | none => db.attachments
  (⟨r.2, emails1, recips1, atts1, db.tokens⟩, !present)

/-! ## Thread aggregation query

Embedding of `EmailService.get_threads_for_user` from
`gmail_integration/services.py`.  A persisted message is modelled with its
internal primary key `id`, the fields the query touches, and the
sender/recipient contact fields denormalized onto the row (the search
filter joins onto them).  Row lists are kept in primary-key/insertion
order; SQL orderings (`order_by('-date')`, `order_by('-latest_date')`)
are modelled as stable sorts, so rows with equal sort keys keep their
underlying table order — the query itself specifies no further
tie-break. -/

structure Msg where
  id : Nat
  account_email : String
  thread_id : String
  date : Nat
  subject : String
  snippet : String
  sender_name : String
  sender_email : String
  recips : List (String × String)
deriving Repr, DecidableEq

def toLowerStr (s : String) : String := String.mk (s.data.map Char.toLower)

/-- Django `icontains`: case-insensitive substring test. -/
def icontains (hay needle : String) : Bool :=
  decide ((toLowerStr needle).data <:+: (toLowerStr hay).data)

/-- Insertion step of a stable sort: place `a` before the first element
`b` with `le a b`, keeping it after every earlier element it does not
precede. -/
def insertOrd (le : α → α → Bool) (a : α) : List α → List α
  | [] => [a]
  | b :: l => if le a b then a :: b :: l else b :: insertOrd le a l

/-- Stable insertion sort: elements with equal sort keys keep their input
order. -/
def sortOrd (le : α → α → Bool) : List α → List α
  | [] => []
  | a :: l => insertOrd le a (sortOrd le l)

/-- One aggregated row of the `values('thread_id').annotate(...)` query:
message count, `Max('date')`, and the id of the first message of the
thread under `order_by('-date')` (the `latest_email_subquery`). -/
structure ThreadAgg where
  thread_id : String
  message_count : Nat
  latest_date : Nat
  latest_email_id : Option Nat
deriving Repr, DecidableEq

/-- One entry of the hydrated `thread_list` result. -/
structure ThreadOut where
  thread_id : String
  message_count : Nat
  latest_email : Msg
  latest_date : Nat
  first_subject : String
  latest_snippet : String
deriving Repr, DecidableEq

/-- Aggregation step: group the filtered messages by thread id (groups in
first-appearance order, as rows come out of the table), annotate each
group, then sort the group list by latest date descending (stable). -/
def threadAggregate (msgs : List Msg) : List ThreadAgg :=
  let tids := (msgs.map (·.thread_id)).foldl
    (fun acc x => if x ∈ acc then acc else acc ++ [x]) []
  let groups := tids.map (fun t =>
    let inThread := msgs.filter (fun m => m.thread_id = t)
    let sorted := sortOrd (fun a b => b.date ≤ a.date) inThread
    ⟨t, inThread.length, ((inThread.map (·.date)).max?).getD 0,
      (sorted.head?).map (·.id)⟩)
  sortOrd (fun a b => b.latest_date ≤ a.latest_date) groups

/-- Embedding of `EmailService.get_threads_for_user`: permission filter to
the accessible accounts, optional single-account filter, optional
case-insensitive search over sender/recipient name and address, thread
aggregation, pagination of the group list (out-of-range page numbers fall
back to the last page, as `EmptyPage` is caught), and hydration of
exactly the groups on the requested page.  Returns the hydrated
`thread_list` for that page. -/
def get_threads_for_user (emails : List Msg) (available_accounts : List String)
    (account_filter : String) (search_query : Option String)
    (page_number : Nat) (items_per_page : Nat) : List ThreadOut :=
  let base := emails.filter (fun m => m.account_email ∈ available_accounts)
  let base2 :=
    if account_filter ≠ "all" then
      base.filter (fun m => m.account_email = account_filter)
    else base
  let base3 :=
    match search_query with
    | some q =>
      if q ≠ "" then
        base2.filter (fun m =>
          icontains m.sender_name q || icontains m.sender_email q ||
          m.recips.any (fun r => icontains r.1 q || icontains r.2 q))
      else base2
    | none => base2
  let ordered := threadAggregate base3
  let num_pages := max 1 ((ordered.length + items_per_page - 1) / items_per_page)
  let page := if 1 ≤ page_number ∧ page_number ≤ num_pages then page_number else num_pages
  let page_threads := (ordered.drop ((page - 1) * items_per_page)).take items_per_page
  page_threads.filterMap (fun t =>
    match t.latest_email_id with
    | some i =>
      match emails.find? (fun e => e.id = i) with
      | some e => some ⟨t.thread_id, t.message_count, e, t.latest_date, e.subject, e.snippet⟩
      | none => none
    | none => none)

/-! ## Sync orchestrator

Embedding of `sync_all_emails` from `utils/gmail_api.py`.  The per-account
interaction with Gmail (obtaining a service via `get_gmail_service`, the
two `fetch_emails` calls and the `getProfile` history-id lookup) is
abstracted as an environment `env`: `none` means no service could be
obtained for that account; otherwise it yields the inbox count, sent
count and history id the account's sync produces. -/

structure SyncRecord where
  account_email : Option String
  status : String
  history_id : String
  emails_synced : Nat
  error_message : String
deriving Repr, DecidableEq

structure TokenAcct where
  email_account : String
  is_active : Bool
deriving Repr, DecidableEq

structure AccountFetch where
  inbox : Nat
  sent : Nat
  history_id : String
deriving Repr, DecidableEq

/-- Per-account entry of the returned `sync_results` dict: either the
success sub-dict (inbox, sent, total, history id) or the
`'error': 'Service unavailable'` sub-dict. -/
inductive AccountResult : Type where
  | ok : Nat → Nat → Nat → String → AccountResult
  | failed : String → AccountResult
deriving Repr, DecidableEq

/-- Loop of `sync_all_emails` over the active tokens: on a missing service
the error entry goes into the results dict and the loop continues (no
SyncStatus row is created on this path); on success a
`SyncStatus.create_sync_record(status='success', ...)` row is created.
Returns (total synced, results dict entries in insertion order, created
SyncStatus rows in creation order). -/
def syncAccounts (env : String → Option AccountFetch) :
    List TokenAcct → Nat × List (String × AccountResult) × List SyncRecord
  | [] => (0, [], [])
  | t :: rest =>
    match env t.email_account with
    | none =>
      let tail := syncAccounts env rest
      (tail.1, (t.email_account, .failed "Service unavailable") :: tail.2.1, tail.2.2)
    | some f =>
      let tail := syncAccounts env rest
      (f.inbox + f.sent + tail.1,
       (t.email_account, .ok f.inbox f.sent (f.inbox + f.sent) f.history_id) :: tail.2.1,
       ⟨some t.email_account, "success", f.history_id, f.inbox + f.sent, ""⟩ :: tail.2.2)

/-- Embedding of `sync_all_emails`. -/
def sync_all_emails (env : String → Option AccountFetch)
    (tokens : List TokenAcct) : Nat × List (String × AccountResult) × List SyncRecord :=
  let active := tokens.filter (·.is_active)
  if active = [] then (0, [], []) else syncAccounts env active

/-! ## Credential refresh

Embedding of the per-account path of `get_gmail_service` in
`utils/gmail_auth.py`.  Stored credentials are modelled by their expiry
flag, presence of a refresh token, and an opaque payload; `Creds.valid`
models `google.oauth2.credentials.Credentials.valid` (token present and
not expired).  The provider exchange `creds.refresh(Request())` is the
environment `refreshEnv`: `none` models the raised exception. -/

structure Creds where
  expired : Bool
  has_refresh_token : Bool
  payload : String
deriving Repr, DecidableEq

def Creds.valid (c : Creds) : Bool := !c.expired

structure TokenRec where
  email_account : String
  is_active : Bool
  token_data : Creds
deriving Repr, DecidableEq

/-- Persisting `token_obj.token_data = ...; token_obj.save()`: update the
first matching active row in place. -/
def saveTokenData : List TokenRec → String → Creds → List TokenRec
  | [], _, _ => []
  | t :: rest, acct, c =>
    if t.email_account = acct ∧ t.is_active then
      ⟨t.email_account, t.is_active, c⟩ :: rest
    else t :: saveTokenData rest acct c

/-- Embedding of `get_gmail_service(account_email=...)`: look up the first
active token for the account; if the credentials are expired and hold a
refresh token, attempt the refresh — on success persist the refreshed
payload, on failure return no service leaving the store untouched;
finally a service is built only from valid credentials. -/
def get_gmail_service (refreshEnv : Creds → Option Creds)
    (db : List TokenRec) (account_email : String) : Option Unit × List TokenRec :=
  match db.find? (fun t => t.email_account = account_email ∧ t.is_active) with
  | none => (none, db)
  | some tok =>
    let creds := tok.token_data
    if creds.expired ∧ creds.has_refresh_token then
      match refreshEnv creds with
      | some creds' =>
        let db' := saveTokenData db account_email creds'
        if creds'.valid then (some (), db') else (none, db')
      | none => (none, db)
    else
      if creds.valid then (some (), db) else (none, db)

/-! ## Theorems -/

theorem processParts_ne_nil_of_anyPart (ps : List Payload)
    (h : anyPart (fun q => !(ownEntry q).isEmpty) ps = true) :
    processParts ps ≠ [] := by
  induction ps using processParts.induct with
  | case1 => simp [anyPart] at h
  | case2 mt fn b pp rest ihsub ihrest =>
    rw [anyPart.eq_def] at h
    rw [processParts.eq_def]
    intro hcon
    have hcon' : ownEntry (.mk mt fn b pp) = [] ∧
        (match pp with
         | some sub => processParts sub
         | none => []) = [] ∧ processParts rest = [] := by
      have := hcon
      simp only [List.append_eq_nil] at this
      exact ⟨this.1.1, this.1.2, this.2⟩
    simp only [Bool.or_eq_true] at h
    rcases h with (hq | hsub) | hrest
    · have : ownEntry (.mk mt fn b pp) ≠ [] := by
        simpa [List.isEmpty_iff] using hq
      exact this hcon'.1
    · cases pp with
      | none => simp at hsub
      | some sub => exact (ihsub hsub) hcon'.2.1
    · exact (ihrest hrest) hcon'.2.2

/-- Claim C10: `parse_email_message` sets `has_attachments` from top-level
parts only (true exactly when some top-level part carries a non-empty
filename), while attachment metadata extraction walks parts recursively;
hence a payload all of whose attachment-bearing parts sit strictly below
the top level yields `has_attachments = false` while
`attachments_metadata` is non-empty. -/
theorem has_attachments_misses_nested_attachments (p : Payload)
    (htop : ∀ q ∈ (p.parts).getD [], q.filename = "")
    (hdeep : anyPart (fun q => !(ownEntry q).isEmpty) ((p.parts).getD []) = true) :
    has_attachments_of p = false ∧ extract_attachment_metadata p ≠ [] := by
  constructor
  · unfold has_attachments_of
    rw [List.any_eq_false]
    intro q hq
    simp [htop q hq]
  · unfold extract_attachment_metadata
    cases hp : p.parts with
    | none => rw [hp] at hdeep; simp [anyPart] at hdeep
    | some ps =>
      rw [hp] at hdeep
      exact processParts_ne_nil_of_anyPart ps (by simpa using hdeep)

/-- Witness for claim C10: a payload whose single top-level part has no
filename but contains a nested part carrying a filename and an attachment
id. -/
theorem has_attachments_misses_nested_attachments_witness :
    has_attachments_of
        (.mk "multipart/mixed" "" none (some
          [.mk "multipart/mixed" "" none (some
            [.mk "application/pdf" "f.pdf" (some ⟨none, some "aid", some 5⟩) none])])) = false ∧
      extract_attachment_metadata
        (.mk "multipart/mixed" "" none (some
          [.mk "multipart/mixed" "" none (some
            [.mk "application/pdf" "f.pdf" (some ⟨none, some "aid", some 5⟩) none])])) ≠ [] :=
  has_attachments_misses_nested_attachments _ (by decide)
    (by simp [anyPart, ownEntry, Payload.filename, Payload.pbody, Payload.mimeType, Payload.parts])

/-- Claim C9: when the stored credentials for an account are expired with
a refresh token present and the refresh exchange fails, `get_gmail_service`
returns no service and the token store is left entirely unchanged — the
old payload stays in place, nothing is deleted or deactivated, and no
partially refreshed payload is written. -/
theorem refresh_failure_leaves_store_unchanged
    (refreshEnv : Creds → Option Creds) (db : List TokenRec) (acct : String)
    (tok : TokenRec)
    (hfind : db.find? (fun t => t.email_account = acct ∧ t.is_active) = some tok)
    (hexp : tok.token_data.expired = true)
    (href : tok.token_data.has_refresh_token = true)
    (henv : refreshEnv tok.token_data = none) :
    get_gmail_service refreshEnv db acct = (none, db) := by
  unfold get_gmail_service
  rw [hfind]
  simp [hexp, href, henv]

/-- Witness for claim C9: a store with one active, expired credential and
a refresh environment that always fails. -/
theorem refresh_failure_leaves_store_unchanged_witness :
    get_gmail_service (fun _ => none) [⟨"a@g", true, ⟨true, true, "old"⟩⟩] "a@g" =
      (none, [⟨"a@g", true, ⟨true, true, "old"⟩⟩]) :=
  refresh_failure_leaves_store_unchanged (fun _ => none) _ "a@g"
    ⟨"a@g", true, ⟨true, true, "old"⟩⟩ (by decide) rfl rfl rfl

/-- Claim C6 counterexample: with two active accounts where no service can
be obtained for the first, `sync_all_emails` creates no SyncStatus record
at all for the failed account (in particular none with outcome `error`,
contradicting the claim); the failure is only reflected in the returned
results dict, and the second account is still synced with a `success`
record. -/
theorem sync_no_error_record_counterexample :
    (sync_all_emails (fun a => if a = "acct2" then some ⟨2, 1, "h"⟩ else none)
        [⟨"acct1", true⟩, ⟨"acct2", true⟩]).2.2 =
      [⟨some "acct2", "success", "h", 3, ""⟩] ∧
    ((sync_all_emails (fun a => if a = "acct2" then some ⟨2, 1, "h"⟩ else none)
        [⟨"acct1", true⟩, ⟨"acct2", true⟩]).2.2.filter
      (fun r => r.account_email = some "acct1")) = [] ∧
    (sync_all_emails (fun a => if a = "acct2" then some ⟨2, 1, "h"⟩ else none)
        [⟨"acct1", true⟩, ⟨"acct2", true⟩]).2.1 =
      [("acct1", AccountResult.failed "Service unavailable"),
       ("acct2", AccountResult.ok 2 1 3 "h")] := by
  decide

theorem syncAccounts_record_shape (env : String → Option AccountFetch)
    (l : List TokenAcct) (r : SyncRecord) (hr : r ∈ (syncAccounts env l).2.2) :
    r.status = "success" ∧ ∃ acct f, env acct = some f ∧
      r = ⟨some acct, "success", f.history_id, f.inbox + f.sent, ""⟩ := by
  induction l with
  | nil => simp [syncAccounts] at hr
  | cons t rest ih =>
    rw [syncAccounts] at hr
    cases henv : env t.email_account with
    | none => rw [henv] at hr; exact ih hr
    | some f =>
      rw [henv] at hr
      simp only [List.mem_cons] at hr
      rcases hr with hr | hr
      · subst hr
        exact ⟨rfl, t.email_account, f, henv, rfl⟩
      · exact ih hr

theorem syncAccounts_success_record (env : String → Option AccountFetch)
    (l : List TokenAcct) (t : TokenAcct) (f : AccountFetch)
    (ht : t ∈ l) (henv : env t.email_account = some f) :
    (⟨some t.email_account, "success", f.history_id, f.inbox + f.sent, ""⟩ : SyncRecord) ∈
      (syncAccounts env l).2.2 := by
  induction l with
  | nil => simp at ht
  | cons u rest ih =>
    rw [syncAccounts]
    rcases List.mem_cons.mp ht with rfl | ht
    · rw [henv]
      exact List.mem_cons_self _ _
    · cases henv2 : env u.email_account with
      | none => exact ih ht
      | some g => exact List.mem_cons_of_mem _ (ih ht)

theorem syncAccounts_failed_result (env : String → Option AccountFetch)
    (l : List TokenAcct) (t : TokenAcct)
    (ht : t ∈ l) (henv : env t.email_account = none) :
    (t.email_account, AccountResult.failed "Service unavailable") ∈
      (syncAccounts env l).2.1 := by
  induction l with
  | nil => simp at ht
  | cons u rest ih =>
    rw [syncAccounts]
    rcases List.mem_cons.mp ht with rfl | ht
    · rw [henv]
      exact List.mem_cons_self _ _
    · cases henv2 : env u.email_account with
      | none => exact List.mem_cons_of_mem _ (ih ht)
      | some g => exact List.mem_cons_of_mem _ (ih ht)

/-- Claim C6 amended: when no Gmail service can be obtained for an active
account during a multi-account pass, the orchestrator records the failure
only in its returned per-account results (entry `Service unavailable`) and
creates no SyncRun record for that account — every record it creates has
outcome `success`, for an account whose service was available — while
every other active account with an available service is still synced in
the same pass and receives its `success` record. -/
theorem sync_failure_isolated_no_error_record
    (env : String → Option AccountFetch) (tokens : List TokenAcct) :
    (∀ r ∈ (sync_all_emails env tokens).2.2,
      r.status = "success" ∧ ∃ acct f, env acct = some f ∧
        r = ⟨some acct, "success", f.history_id, f.inbox + f.sent, ""⟩) ∧
    (∀ t ∈ tokens, t.is_active = true → env t.email_account = none →
      (t.email_account, AccountResult.failed "Service unavailable") ∈
        (sync_all_emails env tokens).2.1) ∧
    (∀ t ∈ tokens, ∀ f, t.is_active = true → env t.email_account = some f →
      (⟨some t.email_account, "success", f.history_id, f.inbox + f.sent, ""⟩ : SyncRecord) ∈
        (sync_all_emails env tokens).2.2) := by
  unfold sync_all_emails
  by_cases hact : tokens.filter (·.is_active) = []
  · simp only [hact, if_pos rfl]
    refine ⟨by simp, ?_, ?_⟩
    · intro t ht hta _
      have : t ∈ tokens.filter (·.is_active) := List.mem_filter.mpr ⟨ht, by simp [hta]⟩
      rw [hact] at this
      simp at this
    · intro t ht f hta _
      have : t ∈ tokens.filter (·.is_active) := List.mem_filter.mpr ⟨ht, by simp [hta]⟩
      rw [hact] at this
      simp at this
  · simp only [if_neg hact]
    refine ⟨?_, ?_, ?_⟩
    · intro r hr
      exact syncAccounts_record_shape env _ r hr
    · intro t ht hta henv
      exact syncAccounts_failed_result env _ t
        (List.mem_filter.mpr ⟨ht, by simp [hta]⟩) henv
    · intro t ht f hta henv
      exact syncAccounts_success_record env _ t f
        (List.mem_filter.mpr ⟨ht, by simp [hta]⟩) henv

/-- Witness for the amended claim C6, at the concrete two-account scenario
of the counterexample. -/
theorem sync_failure_isolated_no_error_record_witness :
    (("acct1", AccountResult.failed "Service unavailable") ∈
      (sync_all_emails (fun a => if a = "acct2" then some ⟨2, 1, "h"⟩ else none)
        [⟨"acct1", true⟩, ⟨"acct2", true⟩]).2.1) ∧
    ((⟨some "acct2", "success", "h", 2 + 1, ""⟩ : SyncRecord) ∈
      (sync_all_emails (fun a => if a = "acct2" then some ⟨2, 1, "h"⟩ else none)
        [⟨"acct1", true⟩, ⟨"acct2", true⟩]).2.2) := by
  constructor
  · exact (sync_failure_isolated_no_error_record _ _).2.1 ⟨"acct1", true⟩
      (by decide) rfl (by decide)
  · exact (sync_failure_isolated_no_error_record _ _).2.2 ⟨"acct2", true⟩
      (by decide) ⟨2, 1, "h"⟩ rfl (by decide)

theorem find?_email_none (cs : List Contact) (a : String)
    (h : ∀ c ∈ cs, c.email ≠ a) : cs.find? (fun c => c.email = a) = none := by
  rw [List.find?_eq_none]
  intro c hc
  simp [h c hc]

theorem updateNameFirst_append_fresh (cs : List Contact) (a m n : String)
    (h : ∀ c ∈ cs, c.email ≠ a) :
    updateNameFirst (cs ++ [⟨a, m⟩]) a n = cs ++ [⟨a, n⟩] := by
  induction cs with
  | nil => simp [updateNameFirst]
  | cons c rest ih =>
    have hc : c.email ≠ a := h c (List.mem_cons_self _ _)
    have ih2 := ih (fun x hx => h x (List.mem_cons_of_mem _ hx))
    simp only [List.cons_append, updateNameFirst, if_neg hc]
    rw [show (rest.append [(⟨a, m⟩ : Contact)]) = rest ++ [(⟨a, m⟩ : Contact)] from rfl, ih2]

theorem length_updateNameFirst (cs : List Contact) (a n : String) :
    (updateNameFirst cs a n).length = cs.length := by
  induction cs with
  | nil => rfl
  | cons c rest ih =>
    by_cases hc : c.email = a <;> simp [updateNameFirst, hc, ih]

theorem mem_updateNameFirst (cs : List Contact) (a n : String) (c c0 : Contact)
    (hc : c ∈ cs) (hfind : cs.find? (fun x => x.email = a) = some c0)
    (hne : c ≠ c0) : c ∈ updateNameFirst cs a n := by
  induction cs with
  | nil => simp at hc
  | cons u rest ih =>
    by_cases hu : u.email = a
    · rw [List.find?_cons] at hfind
      simp only [hu] at hfind
      simp only [decide_True] at hfind
      have hu0 : u = c0 := by
        simpa using hfind
      rcases List.mem_cons.mp hc with rfl | hc
      · exact absurd hu0 hne
      · simp [updateNameFirst, hu, List.mem_cons_of_mem _ hc]
    · rw [List.find?_cons] at hfind
      simp only [hu] at hfind
      simp only [decide_False] at hfind
      rcases List.mem_cons.mp hc with rfl | hc
      · simp [updateNameFirst, hu]
      · simp only [updateNameFirst, if_neg hu]
        exact List.mem_cons_of_mem _ (ih hc hfind)

/-- Claim C7: contact name resolution is first-writer-wins — resolving an
address with an empty name and then a non-empty one leaves one contact
carrying the later name; resolving with a non-empty name and then a
different name leaves the first name in place; and a stored non-empty
name is never lost by any later resolution. -/
theorem contact_name_first_writer_wins :
    (∀ (cs : List Contact) (a n2 : String), a ≠ "" → n2 ≠ "" →
      (∀ c ∈ cs, c.email ≠ a) →
      ((get_or_create_contact (get_or_create_contact cs a "").2 a n2).2.filter
        (fun c => c.email = a)) = [⟨a, n2⟩]) ∧
    (∀ (cs : List Contact) (a n1 n2 : String), a ≠ "" → n1 ≠ "" →
      (∀ c ∈ cs, c.email ≠ a) →
      ((get_or_create_contact (get_or_create_contact cs a n1).2 a n2).2.filter
        (fun c => c.email = a)) = [⟨a, n1⟩]) ∧
    (∀ (cs : List Contact) (a n : String) (c : Contact), c ∈ cs → c.name ≠ "" →
      c ∈ (get_or_create_contact cs a n).2) := by
  refine ⟨?_, ?_, ?_⟩
  · intro cs a n2 ha hn2 hfresh
    have hf1 : cs.find? (fun c => c.email = a) = none := find?_email_none cs a hfresh
    have step1 : (get_or_create_contact cs a "").2 = cs ++ [⟨a, ""⟩] := by
      simp [get_or_create_contact, ha, hf1]
    rw [step1]
    have hf2 : List.find? (fun c => c.email = a) (cs ++ [(⟨a, ""⟩ : Contact)]) =
        some (⟨a, ""⟩ : Contact) := by
      rw [List.find?_append, hf1]
      simp [List.find?_cons]
    have step2 : (get_or_create_contact (cs ++ [(⟨a, ""⟩ : Contact)]) a n2).2 =
        cs ++ [⟨a, n2⟩] := by
      simp only [get_or_create_contact, if_neg ha, hf2]
      rw [if_pos (by exact ⟨hn2, by simp⟩)]
      exact updateNameFirst_append_fresh cs a "" n2 hfresh
    rw [step2, List.filter_append]
    rw [List.filter_eq_nil.mpr (by intro c hc; simp [hfresh c hc])]
    simp
  · intro cs a n1 n2 ha hn1 hfresh
    have hf1 : cs.find? (fun c => c.email = a) = none := find?_email_none cs a hfresh
    have step1 : (get_or_create_contact cs a n1).2 = cs ++ [⟨a, n1⟩] := by
      simp [get_or_create_contact, ha, hf1]
    rw [step1]
    have hf2 : List.find? (fun c => c.email = a) (cs ++ [(⟨a, n1⟩ : Contact)]) =
        some (⟨a, n1⟩ : Contact) := by
      rw [List.find?_append, hf1]
      simp [List.find?_cons]
    have step2 : (get_or_create_contact (cs ++ [(⟨a, n1⟩ : Contact)]) a n2).2 =
        cs ++ [⟨a, n1⟩] := by
      simp only [get_or_create_contact, if_neg ha, hf2]
      rw [if_neg (by simp [hn1])]
    rw [step2, List.filter_append]
    rw [List.filter_eq_nil.mpr (by intro c hc; simp [hfresh c hc])]
    simp
  · intro cs a n c hc hname
    unfold get_or_create_contact
    by_cases ha : a = ""
    · simp [ha, hc]
    · simp only [if_neg ha]
      cases hf : cs.find? (fun x => x.email = a) with
      | none => simp [List.mem_append, hc]
      | some c0 =>
        by_cases hcond : n ≠ "" ∧ c0.name = ""
        · simp only [if_pos hcond]
          have hne : c ≠ c0 := by
            intro he
            rw [he] at hname
            exact hname hcond.2
          exact mem_updateNameFirst cs a n c c0 hc hf hne
        · simp [hcond, hc]

/-- Witness for claim C7 at a concrete store. -/
theorem contact_name_first_writer_wins_witness :
    ((get_or_create_contact (get_or_create_contact [] "j@x" "").2 "j@x" "Jane").2.filter
      (fun c => c.email = "j@x")) = [⟨"j@x", "Jane"⟩] ∧
    ((get_or_create_contact (get_or_create_contact [] "j@x" "Jane").2 "j@x" "Bob").2.filter
      (fun c => c.email = "j@x")) = [⟨"j@x", "Jane"⟩] ∧
    (⟨"j@x", "Jane"⟩ : Contact) ∈ (get_or_create_contact [⟨"j@x", "Jane"⟩] "j@x" "Bob").2 := by
  refine ⟨?_, ?_, ?_⟩
  · exact contact_name_first_writer_wins.1 [] "j@x" "Jane" (by decide) (by decide) (by decide)
  · exact contact_name_first_writer_wins.2.1 [] "j@x" "Jane" "Bob" (by decide) (by decide) (by decide)
  · exact contact_name_first_writer_wins.2.2 [⟨"j@x", "Jane"⟩] "j@x" "Bob" ⟨"j@x", "Jane"⟩
      (by decide) (by decide)

/-- Claim C8 counterexample: `get_or_create_contact` looks the address up
with an exact string match, so two addresses differing only in letter
case — or only in surrounding whitespace — produce two distinct contact
rows, not one. -/
theorem contact_lookup_not_case_insensitive_counterexample :
    (get_or_create_contact (get_or_create_contact [] "A@x.com" "").2 "a@x.com" "").2 =
      [⟨"A@x.com", ""⟩, ⟨"a@x.com", ""⟩] ∧
    (get_or_create_contact (get_or_create_contact [] "A@x.com" "").2 "a@x.com" "").2.length = 2 ∧
    (get_or_create_contact (get_or_create_contact [] "a@x.com" "").2 " a@x.com " "").2.length = 2 := by
  decide

/-- Claim C8 amended: contact lookup is an exact match on the address
string as given (case-sensitive, no trimming): resolving an address that
is already stored verbatim adds no row, while resolving two different
strings — such as case or whitespace variants — yields two separate rows,
one keyed by each string. -/
theorem contact_lookup_exact_match :
    (∀ (cs : List Contact) (a n : String),
      (cs.find? (fun c => c.email = a)).isSome →
      ((get_or_create_contact cs a n).2).length = cs.length) ∧
    (∀ (cs : List Contact) (a b n1 n2 : String), a ≠ "" → b ≠ "" → a ≠ b →
      (∀ c ∈ cs, c.email ≠ a) → (∀ c ∈ cs, c.email ≠ b) →
      (((get_or_create_contact (get_or_create_contact cs a n1).2 b n2).2.filter
          (fun c => c.email = a)).length = 1 ∧
        ((get_or_create_contact (get_or_create_contact cs a n1).2 b n2).2.filter
          (fun c => c.email = b)).length = 1 ∧
        ((get_or_create_contact (get_or_create_contact cs a n1).2 b n2).2).length =
          cs.length + 2)) := by
  constructor
  · intro cs a n hsome
    unfold get_or_create_contact
    by_cases ha : a = ""
    · simp [ha]
    · simp only [if_neg ha]
      cases hf : cs.find? (fun x => x.email = a) with
      | none => rw [hf] at hsome; simp at hsome
      | some c0 =>
        by_cases hcond : n ≠ "" ∧ c0.name = ""
        · simp [hcond, length_updateNameFirst]
        · simp [hcond]
  · intro cs a b n1 n2 ha hb hab hfa hfb
    have hf1 : cs.find? (fun c => c.email = a) = none := find?_email_none cs a hfa
    have step1 : (get_or_create_contact cs a n1).2 = cs ++ [⟨a, n1⟩] := by
      simp [get_or_create_contact, ha, hf1]
    rw [step1]
    have hf2 : List.find? (fun c => c.email = b) (cs ++ [(⟨a, n1⟩ : Contact)]) = none := by
      rw [List.find?_append, find?_email_none cs b hfb]
      simp [List.find?_cons, hab]
    have step2 : (get_or_create_contact (cs ++ [(⟨a, n1⟩ : Contact)]) b n2).2 =
        cs ++ [⟨a, n1⟩] ++ [⟨b, n2⟩] := by
      simp [get_or_create_contact, hb, hf2]
    rw [step2]
    refine ⟨?_, ?_, by simp⟩
    · rw [List.filter_append, List.filter_append]
      rw [List.filter_eq_nil.mpr (by intro c hc; simp [hfa c hc])]
      simp [hab, Ne.symm hab]
    · rw [List.filter_append, List.filter_append]
      rw [List.filter_eq_nil.mpr (by intro c hc; simp [hfb c hc])]
      simp [hab, Ne.symm hab]

/-- Witness for the amended claim C8. -/
theorem contact_lookup_exact_match_witness :
    ((get_or_create_contact [⟨"a@x.com", "Jane"⟩] "a@x.com" "Bob").2).length =
      ([⟨"a@x.com", "Jane"⟩] : List Contact).length ∧
    (((get_or_create_contact (get_or_create_contact [] "A@x.com" "").2 "a@x.com" "").2.filter
        (fun c => c.email = "A@x.com")).length = 1 ∧
      ((get_or_create_contact (get_or_create_contact [] "A@x.com" "").2 "a@x.com" "").2.filter
        (fun c => c.email = "a@x.com")).length = 1 ∧
      ((get_or_create_contact (get_or_create_contact [] "A@x.com" "").2 "a@x.com" "").2).length =
        ([] : List Contact).length + 2) := by
  constructor
  · exact contact_lookup_exact_match.1 [⟨"a@x.com", "Jane"⟩] "a@x.com" "Bob" (by decide)
  · exact contact_lookup_exact_match.2 [] "A@x.com" "a@x.com" "" "" (by decide) (by decide)
      (by decide) (by decide) (by decide)

theorem get_or_create_contact_fst (cs : List Contact) (a n : String) :
    (get_or_create_contact cs a n).1 = if a = "" then none else some a := by
  unfold get_or_create_contact
  by_cases ha : a = ""
  · simp [ha]
  · simp only [if_neg ha]
    cases cs.find? (fun c => c.email = a) with
    | none => simp [ha]
    | some c =>
      by_cases h : n ≠ "" ∧ c.name = "" <;> simp [h, ha]

theorem resolveRecipients_keys (cs : List Contact) (addrs : List String) :
    (resolveRecipients cs addrs).1 = addrs.filter (· ≠ "") := by
  induction addrs generalizing cs with
  | nil => simp [resolveRecipients]
  | cons a rest ih =>
    simp only [resolveRecipients, get_or_create_contact_fst]
    by_cases ha : a = ""
    · simp [ha, ih]
    · simp [ha, ih]

/-- Claim C3 counterexample: after a first ingestion stores a recipient
link, re-ingesting the same message with an empty to+cc+bcc union leaves
the stale link in place — the relation is not set to the empty set as the
claim requires. -/
theorem recipients_not_cleared_counterexample :
    (save_email_to_db
        (save_email_to_db ⟨[], [], [], [], []⟩
          ⟨"g1", "t1", "s", "s@x", "S", ["a@x"], [], [], 5, "sn", "bt", "bh",
            [], true, false, [], "acct"⟩ none).1
        ⟨"g1", "t1", "s", "s@x", "S", [], [], [], 5, "sn", "bt", "bh",
          [], true, false, [], "acct"⟩ none).1.recipients =
      [("g1", "a@x")] ∧
    ((save_email_to_db
        (save_email_to_db ⟨[], [], [], [], []⟩
          ⟨"g1", "t1", "s", "s@x", "S", ["a@x"], [], [], 5, "sn", "bt", "bh",
            [], true, false, [], "acct"⟩ none).1
        ⟨"g1", "t1", "s", "s@x", "S", [], [], [], 5, "sn", "bt", "bh",
          [], true, false, [], "acct"⟩ none).1.recipients.filter
      (fun pr => pr.1 = "g1")) ≠ [] := by
  decide

theorem save_recipients_characterization (db : DB) (d : EmailData)
    (service : Option (String → String → Option (List Nat))) :
    (save_email_to_db db d service).1.recipients =
      if d.recipient_list ++ d.cc_list ++ d.bcc_list = [] then db.recipients
      else (db.recipients.filter (fun pr => pr.1 ≠ d.gmail_id)) ++
        ((pyDedup (d.recipient_list ++ d.cc_list ++ d.bcc_list)).filter (· ≠ "")).map
          (fun k => (d.gmail_id, k)) := by
  simp only [save_email_to_db, resolveRecipients_keys]
  by_cases hu : d.recipient_list ++ d.cc_list ++ d.bcc_list = []
  · rw [if_neg (not_not_intro hu), if_pos hu]
  · rw [if_pos hu, if_neg hu]

/-- Claim C3 amended: each upsert with a non-empty to+cc+bcc union
replaces the message's recipient relation with exactly the deduplicated
union (dropping empty addresses), removing stale links of that message
while leaving other messages' links untouched; but when the union is
empty the relation is left exactly as it was — stale recipients from a
previous ingestion are not removed in that case. -/
theorem recipients_replaced_only_when_nonempty (db : DB) (d : EmailData)
    (service : Option (String → String → Option (List Nat))) :
    (save_email_to_db db d service).1.recipients =
      if d.recipient_list ++ d.cc_list ++ d.bcc_list = [] then db.recipients
      else (db.recipients.filter (fun pr => pr.1 ≠ d.gmail_id)) ++
        ((pyDedup (d.recipient_list ++ d.cc_list ++ d.bcc_list)).filter (· ≠ "")).map
          (fun k => (d.gmail_id, k)) :=
  save_recipients_characterization db d service

/-! ### Body extraction (claim C2) -/

theorem parseParts_cons (decode : String → String) (acc : String × String)
    (p : Payload) (rest : List Payload) :
    parseParts decode acc (p :: rest) = parseParts decode (partStep decode acc p) rest := rfl

theorem partStep_fst_of_no_plain (decode : String → String) (acc : String × String)
    (p : Payload)
    (h : (if p.mimeType = "text/plain" then p.inlineData else none) = none)
    (hacc : acc.1 ≠ "") : (partStep decode acc p).1 = acc.1 := by
  unfold partStep
  cases hd : p.inlineData with
  | some d =>
    have hmt : p.mimeType ≠ "text/plain" := by
      intro hmt
      rw [if_pos hmt, hd] at h
      simp at h
    by_cases hhtml : p.mimeType = "text/html"
    · simp [hmt, hhtml]
    · by_cases hps : (p.parts).isSome <;> simp [hmt, hhtml, hps, hacc]
  | none =>
    by_cases hps : (p.parts).isSome <;> simp [hps, hacc]

theorem partStep_snd_of_no_html (decode : String → String) (acc : String × String)
    (p : Payload)
    (h : (if p.mimeType = "text/html" then p.inlineData else none) = none)
    (hacc : acc.2 ≠ "") : (partStep decode acc p).2 = acc.2 := by
  unfold partStep
  cases hd : p.inlineData with
  | some d =>
    have hmt : p.mimeType ≠ "text/html" := by
      intro hmt
      rw [if_pos hmt, hd] at h
      simp at h
    by_cases hplain : p.mimeType = "text/plain"
    · simp [hmt, hplain]
    · by_cases hps : (p.parts).isSome <;> simp [hmt, hplain, hps, hacc]
  | none =>
    by_cases hps : (p.parts).isSome <;> simp [hps, hacc]

theorem parseParts_fst_of_no_plain (decode : String → String) (acc : String × String)
    (ps : List Payload) (h : lastDataOf "text/plain" ps = none) (hacc : acc.1 ≠ "") :
    (parseParts decode acc ps).1 = acc.1 := by
  induction ps generalizing acc with
  | nil => rfl
  | cons p rest ih =>
    rw [lastDataOf] at h
    cases hrest : lastDataOf "text/plain" rest with
    | some d2 => rw [hrest] at h; simp at h
    | none =>
      rw [hrest] at h
      rw [parseParts_cons]
      have hstep := partStep_fst_of_no_plain decode acc p h hacc
      rw [ih _ hrest (by rw [hstep]; exact hacc), hstep]

theorem parseParts_snd_of_no_html (decode : String → String) (acc : String × String)
    (ps : List Payload) (h : lastDataOf "text/html" ps = none) (hacc : acc.2 ≠ "") :
    (parseParts decode acc ps).2 = acc.2 := by
  induction ps generalizing acc with
  | nil => rfl
  | cons p rest ih =>
    rw [lastDataOf] at h
    cases hrest : lastDataOf "text/html" rest with
    | some d2 => rw [hrest] at h; simp at h
    | none =>
      rw [hrest] at h
      rw [parseParts_cons]
      have hstep := partStep_snd_of_no_html decode acc p h hacc
      rw [ih _ hrest (by rw [hstep]; exact hacc), hstep]

theorem parseParts_fst_of_last_plain (decode : String → String) (acc : String × String)
    (ps : List Payload) (d : String)
    (h : lastDataOf "text/plain" ps = some d) (hd : decode d ≠ "") :
    (parseParts decode acc ps).1 = decode d := by
  induction ps generalizing acc with
  | nil => rw [lastDataOf] at h; simp at h
  | cons p rest ih =>
    rw [lastDataOf] at h
    rw [parseParts_cons]
    cases hrest : lastDataOf "text/plain" rest with
    | some d2 =>
      rw [hrest] at h
      have h2 : some d2 = some d := h
      cases h2
      exact ih _ hrest
    | none =>
      rw [hrest] at h
      have h2 : (if p.mimeType = "text/plain" then p.inlineData else none) = some d := h
      by_cases hmt : p.mimeType = "text/plain"
      · rw [if_pos hmt] at h2
        have hstep : (partStep decode acc p).1 = decode d := by
          unfold partStep
          rw [h2]
          simp [hmt]
        rw [parseParts_fst_of_no_plain decode _ rest hrest (by rw [hstep]; exact hd), hstep]
      · rw [if_neg hmt] at h2
        cases h2

theorem parseParts_snd_of_last_html (decode : String → String) (acc : String × String)
    (ps : List Payload) (d : String)
    (h : lastDataOf "text/html" ps = some d) (hd : decode d ≠ "") :
    (parseParts decode acc ps).2 = decode d := by
  induction ps generalizing acc with
  | nil => rw [lastDataOf] at h; simp at h
  | cons p rest ih =>
    rw [lastDataOf] at h
    rw [parseParts_cons]
    cases hrest : lastDataOf "text/html" rest with
    | some d2 =>
      rw [hrest] at h
      have h2 : some d2 = some d := h
      cases h2
      exact ih _ hrest
    | none =>
      rw [hrest] at h
      have h2 : (if p.mimeType = "text/html" then p.inlineData else none) = some d := h
      by_cases hmt : p.mimeType = "text/html"
      · rw [if_pos hmt] at h2
        have hstep : (partStep decode acc p).2 = decode d := by
          unfold partStep
          rw [h2]
          by_cases hplain : p.mimeType = "text/plain"
          · rw [hplain] at hmt; simp at hmt
          · simp [hmt, hplain]
        rw [parseParts_snd_of_no_html decode _ rest hrest (by rw [hstep]; exact hd), hstep]
      · rw [if_neg hmt] at h2
        cases h2

/-- Claim C2 counterexample: in a payload with two sibling `text/plain`
parts carrying inline data, the second (later-visited) sibling overwrites
the body found at the first — the first-encountered part does not win. -/
theorem body_extraction_first_wins_counterexample :
    parse_email_body (fun s => s)
        (.mk "multipart/alternative" "" none (some
          [.mk "text/plain" "" (some ⟨some "A", none, none⟩) none,
           .mk "text/plain" "" (some ⟨some "B", none, none⟩) none])) = ("B", "") ∧
    (("B", "") : String × String) ≠ ("A", "") := by
  exact ⟨rfl, by decide⟩

/-- Claim C2 amended: during the parts walk, a direct sibling part of a
given kind (`text/plain` for the text body, `text/html` for the html
body) carrying inline data overwrites any previously found body of that
kind, so the last such direct part wins whenever its decoded data is
non-empty; a body carried inline by the payload itself survives exactly
when no direct part of its kind carries data; and nested multipart parts
never overwrite an already-found non-empty body (they only fill bodies
that are still empty). -/
theorem body_extraction_last_sibling_wins (decode : String → String) :
    (∀ (mt fn : String) (b : Option PBody) (ps : List Payload) (d : String),
      lastDataOf "text/plain" ps = some d → decode d ≠ "" →
      (parse_email_body decode (.mk mt fn b (some ps))).1 = decode d) ∧
    (∀ (mt fn : String) (b : Option PBody) (ps : List Payload) (d : String),
      lastDataOf "text/html" ps = some d → decode d ≠ "" →
      (parse_email_body decode (.mk mt fn b (some ps))).2 = decode d) ∧
    (∀ (mt fn : String) (pb : PBody) (ps : List Payload) (d0 : String),
      mt ≠ "text/html" → pb.data = some d0 → decode d0 ≠ "" →
      lastDataOf "text/plain" ps = none →
      (parse_email_body decode (.mk mt fn (some pb) (some ps))).1 = decode d0) ∧
    (∀ (fn : String) (pb : PBody) (ps : List Payload) (d0 : String),
      pb.data = some d0 → decode d0 ≠ "" →
      lastDataOf "text/html" ps = none →
      (parse_email_body decode (.mk "text/html" fn (some pb) (some ps))).2 = decode d0) := by
  refine ⟨?_, ?_, ?_, ?_⟩
  · intro mt fn b ps d h hd
    exact parseParts_fst_of_last_plain decode _ ps d h hd
  · intro mt fn b ps d h hd
    exact parseParts_snd_of_last_html decode _ ps d h hd
  · intro mt fn pb ps d0 hmt hdata hd hnone
    obtain ⟨pdata, paid, psize⟩ := pb
    have hdata2 : pdata = some d0 := hdata
    subst hdata2
    have hrw : parse_email_body decode (.mk mt fn (some ⟨some d0, paid, psize⟩) (some ps)) =
        parseParts decode (if mt = "text/html" then ("", decode d0) else (decode d0, "")) ps := rfl
    rw [hrw, if_neg hmt]
    exact parseParts_fst_of_no_plain decode _ ps hnone hd
  · intro fn pb ps d0 hdata hd hnone
    obtain ⟨pdata, paid, psize⟩ := pb
    have hdata2 : pdata = some d0 := hdata
    subst hdata2
    have hrw : parse_email_body decode (.mk "text/html" fn (some ⟨some d0, paid, psize⟩) (some ps)) =
        parseParts decode (("", decode d0) : String × String) ps := by
      rfl
    rw [hrw]
    exact parseParts_snd_of_no_html decode _ ps hnone hd

/-- Witness for the amended claim C2, at the two-sibling payload of the
counterexample and at a payload with an inline body and a nested part. -/
theorem body_extraction_last_sibling_wins_witness :
    (parse_email_body (fun s => s)
        (.mk "multipart/alternative" "" none (some
          [.mk "text/plain" "" (some ⟨some "A", none, none⟩) none,
           .mk "text/plain" "" (some ⟨some "B", none, none⟩) none]))).1 =
      (fun s : String => s) "B" ∧
    (parse_email_body (fun s => s)
        (.mk "text/plain" "" (some ⟨some "T", none, none⟩) (some
          [.mk "multipart/mixed" "" none (some
            [.mk "text/plain" "" (some ⟨some "N", none, none⟩) none])]))).1 =
      (fun s : String => s) "T" := by
  constructor
  · exact (body_extraction_last_sibling_wins (fun s => s)).1 "multipart/alternative" "" none
      _ "B" (by decide) (by decide)
  · exact (body_extraction_last_sibling_wins (fun s => s)).2.2.1 "text/plain" ""
      ⟨some "T", none, none⟩ _ "T" (by decide) (by decide) (by decide) (by decide)

/-! ### Sender parsing (claim C4) -/

theorem takeWhile_all_true {p : Char → Bool} (l : List Char)
    (h : ∀ x ∈ l, p x = true) : l.takeWhile p = l := by
  induction l with
  | nil => rfl
  | cons c rest ih =>
    rw [List.takeWhile_cons, if_pos (h c (List.mem_cons_self _ _))]
    rw [ih (fun x hx => h x (List.mem_cons_of_mem _ hx))]

theorem group2Of_append (a t2 : List Char) (ha : a ≠ []) (hgt : '>' ∉ a)
    (hnl : '\n' ∉ a) : group2Of (a ++ '>' :: t2) = some a := by
  cases a with
  | nil => exact absurd rfl ha
  | cons c0 arest =>
    have hpre : List.takeWhile (fun c => decide (c ≠ '>')) (arest ++ '>' :: t2) = arest := by
      rw [List.takeWhile_append]
      have harest : List.takeWhile (fun c => decide (c ≠ '>')) arest = arest :=
        takeWhile_all_true arest (fun x hx => by
          have hxne : x ≠ '>' := fun he => hgt (List.mem_cons_of_mem c0 (he ▸ hx))
          simp [hxne])
      rw [harest]
      simp
    have hc0 : c0 ≠ '\n' := fun he => hnl (he ▸ List.mem_cons_self _ _)
    have harestnl : '\n' ∉ arest := fun hm => hnl (List.mem_cons_of_mem _ hm)
    show group2Of (c0 :: (arest ++ '>' :: t2)) = some (c0 :: arest)
    simp only [group2Of]
    rw [hpre]
    rw [if_neg (by
      intro hcon
      rcases hcon with hcon | hcon
      · exact hc0 hcon
      · exact harestnl hcon)]
    rw [if_neg (by
      rw [List.length_append, List.length_cons]
      omega)]

theorem regexGo_eq_none_of_no_lt (cs : List Char) (g1rev : List Char)
    (h : '<' ∉ cs) : regexGo g1rev cs = none := by
  induction cs generalizing g1rev with
  | nil => rfl
  | cons c rest ih =>
    have hrest : '<' ∉ rest := fun hm => h (List.mem_cons_of_mem _ hm)
    unfold regexGo
    by_cases hc : c = '\n'
    · simp [hc]
    · rw [if_neg hc]
      cases hdw : rest.dropWhile isSpace with
      | nil => exact ih _ hrest
      | cons br tail =>
        have hbr : br ∈ rest := by
          refine (List.dropWhile_sublist isSpace).mem ?_
          rw [hdw]
          exact List.mem_cons_self _ _
        have hbrne : br ≠ '<' := fun he => hrest (he ▸ hbr)
        simp only [if_neg hbrne]
        exact ih _ hrest

theorem g1TakenOf_cons_all (c : Char) (n2 : List Char) (hall : n2.all isSpace = true) :
    g1TakenOf (c :: n2) = [c] := by
  unfold g1TakenOf
  by_cases hc : isSpace c = true
  · rw [if_pos (by
      rw [List.all_cons, Bool.and_eq_true]
      exact ⟨hc, hall⟩)]
    rfl
  · rw [if_neg (by
      rw [List.all_cons, Bool.and_eq_true]
      intro hcon
      exact hc hcon.1)]
    have hrev : List.dropWhile isSpace (n2.reverse ++ [c]) = [c] := by
      rw [List.dropWhile_append]
      have h1 : n2.reverse.dropWhile isSpace = [] := by
        rw [List.dropWhile_eq_nil_iff]
        intro x hx
        exact (List.all_eq_true.mp hall) x (List.mem_reverse.mp hx)
      simp [h1, List.dropWhile_cons, hc]
    rw [show (c :: n2).reverse = n2.reverse ++ [c] by simp]
    rw [hrev]
    rfl

theorem g1TakenOf_cons_not_all (c : Char) (n2 : List Char)
    (hall : ¬ n2.all isSpace = true) :
    g1TakenOf (c :: n2) = c :: g1TakenOf n2 := by
  unfold g1TakenOf
  have hne : n2.reverse.dropWhile isSpace ≠ [] := by
    rw [Ne, List.dropWhile_eq_nil_iff]
    intro hcon
    exact hall (List.all_eq_true.mpr (fun x hx => hcon x (List.mem_reverse.mpr hx)))
  rw [if_neg (by
    rw [List.all_cons, Bool.and_eq_true]
    intro hcon
    exact hall hcon.2)]
  rw [if_neg hall]
  rw [show (c :: n2).reverse = n2.reverse ++ [c] by simp]
  rw [List.dropWhile_append]
  rw [if_neg (by simp [List.isEmpty_iff, hne])]
  simp

theorem pyStrip_of_all_space (l : List Char) (h : ∀ x ∈ l, isSpace x = true) :
    pyStrip l = [] := by
  unfold pyStrip
  have h1 : l.dropWhile isSpace = [] := List.dropWhile_eq_nil_iff.mpr h
  simp [h1]

theorem pyStrip_append_space (u w : List Char) (hw : ∀ x ∈ w, isSpace x = true) :
    pyStrip (u ++ w) = pyStrip u := by
  by_cases hu : u.dropWhile isSpace = []
  · rw [pyStrip_of_all_space u (List.dropWhile_eq_nil_iff.mp hu)]
    refine pyStrip_of_all_space _ ?_
    intro x hx
    rcases List.mem_append.mp hx with hx | hx
    · exact List.dropWhile_eq_nil_iff.mp hu x hx
    · exact hw x hx
  · unfold pyStrip
    rw [List.dropWhile_append, if_neg (by simp [List.isEmpty_iff, hu])]
    rw [List.reverse_append]
    rw [List.dropWhile_append]
    rw [if_pos (by
      simp only [List.isEmpty_iff, List.dropWhile_eq_nil_iff]
      intro x hx
      exact hw x (List.mem_reverse.mp hx))]

theorem pyStrip_g1TakenOf (n : List Char) : pyStrip (g1TakenOf n) = pyStrip n := by
  by_cases hall : n.all isSpace = true
  · rw [g1TakenOf, if_pos hall]
    rw [pyStrip_of_all_space _ (fun x hx =>
      (List.all_eq_true.mp hall) x (List.mem_of_mem_take hx))]
    rw [pyStrip_of_all_space _ (List.all_eq_true.mp hall)]
  · rw [g1TakenOf, if_neg hall]
    have hdecomp : n = (n.reverse.dropWhile isSpace).reverse ++
        (n.reverse.takeWhile isSpace).reverse := by
      rw [← List.reverse_append, List.takeWhile_append_dropWhile, List.reverse_reverse]
    conv_rhs => rw [hdecomp]
    rw [pyStrip_append_space]
    intro x hx
    exact List.mem_takeWhile_imp (List.mem_reverse.mp hx)

theorem regexGo_bracket : ∀ (n g1rev tail g2 : List Char),
    n ≠ [] → '<' ∉ n → '\n' ∉ n → group2Of tail = some g2 →
    regexGo g1rev (n ++ '<' :: tail) = some (g1rev.reverse ++ g1TakenOf n, g2) := by
  intro n
  induction n with
  | nil =>
    intro g1rev tail g2 hne _ _ _
    exact absurd rfl hne
  | cons c n2 ih =>
    intro g1rev tail g2 hne hlt hnl hg2
    have hcnl : c ≠ '\n' := fun he => hnl (he ▸ List.mem_cons_self _ _)
    have hn2nl : '\n' ∉ n2 := fun hm => hnl (List.mem_cons_of_mem _ hm)
    have hn2lt : '<' ∉ n2 := fun hm => hlt (List.mem_cons_of_mem _ hm)
    show regexGo g1rev (c :: (n2 ++ '<' :: tail)) = _
    unfold regexGo
    rw [if_neg hcnl]
    by_cases hall : n2.all isSpace = true
    · have hdw : List.dropWhile isSpace (n2 ++ '<' :: tail) = '<' :: tail := by
        have h1 : n2.dropWhile isSpace = [] :=
          List.dropWhile_eq_nil_iff.mpr (List.all_eq_true.mp hall)
        rw [List.dropWhile_append, h1]
        simp [List.dropWhile_cons, (by decide : isSpace '<' = false)]
      rw [hdw]
      simp only [hg2, g1TakenOf_cons_all c n2 hall]
      simp
    · have hne2 : n2.dropWhile isSpace ≠ [] := by
        rw [Ne, List.dropWhile_eq_nil_iff]
        intro hcon
        exact hall (List.all_eq_true.mpr hcon)
      obtain ⟨br, tl2, hbrtl⟩ : ∃ br tl2, n2.dropWhile isSpace = br :: tl2 := by
        cases h : n2.dropWhile isSpace with
        | nil => exact absurd h hne2
        | cons x xs => exact ⟨x, xs, rfl⟩
      have hdw : List.dropWhile isSpace (n2 ++ '<' :: tail) =
          br :: (tl2 ++ '<' :: tail) := by
        rw [List.dropWhile_append]
        rw [if_neg (by simp [List.isEmpty_iff, hne2])]
        rw [hbrtl]
        rfl
      rw [hdw]
      have hbrmem : br ∈ n2 := by
        refine (List.dropWhile_sublist isSpace).mem ?_
        rw [hbrtl]
        exact List.mem_cons_self _ _
      have hbrne : br ≠ '<' := fun he => hn2lt (he ▸ hbrmem)
      simp only [if_neg hbrne]
      have hn2ne : n2 ≠ [] := by
        intro hcon
        rw [hcon] at hne2
        exact hne2 rfl
      rw [ih (c :: g1rev) tail g2 hn2ne hn2lt hn2nl hg2]
      rw [g1TakenOf_cons_not_all c n2 hall]
      simp

/-- Claim C4 counterexample: the input `Jane <unclosed` is malformed and
contains no recognizable address, yet `extract_email_and_name` returns the
whole stripped input as the address — a non-empty address — rather than
the empty address the claim requires. -/
theorem extract_email_malformed_counterexample :
    extract_email_and_name (some "Jane <unclosed") = ("Jane <unclosed", "") ∧
    ("Jane <unclosed" : String) ≠ "" := by
  exact ⟨by decide, by decide⟩

/-- Claim C4 amended: sender parsing never raises and returns an
(address, name) pair as follows — empty or `None` input yields
`("", "")`; an input of the form `Display Name <addr>` (display name
optionally quoted, containing no opening bracket or newline; address
non-empty with no closing bracket or newline) yields the bracketed
address and the stripped, unquoted name; and an input on which the
pattern finds no match — including every input without an opening angle
bracket, be it a bare address or malformed text — is returned whole,
stripped of surrounding whitespace, as the address with an empty name. -/
theorem extract_email_and_name_behavior :
    (extract_email_and_name none = ("", "") ∧
      extract_email_and_name (some "") = ("", "")) ∧
    (∀ s : String, regexGo [] s.data = none →
      extract_email_and_name (some s) = (pyStripStr s, "")) ∧
    (∀ s : String, '<' ∉ s.data →
      extract_email_and_name (some s) = (pyStripStr s, "")) ∧
    (∀ n a : List Char, n ≠ [] → '<' ∉ n → '\n' ∉ n → a ≠ [] → '>' ∉ a → '\n' ∉ a →
      extract_email_and_name (some (String.mk (n ++ '<' :: (a ++ ['>'])))) =
        (String.mk (pyStrip a), String.mk (stripQuotes (pyStrip n)))) := by
  have hgen : ∀ s : String, regexGo [] s.data = none →
      extract_email_and_name (some s) = (pyStripStr s, "") := by
    intro s h
    by_cases hs : s = ""
    · subst hs
      rfl
    · show (if s = "" then (("" : String), ("" : String))
        else
          match regexGo [] s.data with
          | some (g1, g2) => (String.mk (pyStrip g2), String.mk (stripQuotes (pyStrip g1)))
          | none => (pyStripStr s, "")) = (pyStripStr s, "")
      rw [if_neg hs, h]
  refine ⟨⟨rfl, rfl⟩, hgen, ?_, ?_⟩
  · intro s h
    exact hgen s (regexGo_eq_none_of_no_lt s.data [] h)
  · intro n a hne hlt hnl hane hagt hanl
    have hsne : String.mk (n ++ '<' :: (a ++ ['>'])) ≠ "" := by
      intro hcon
      have : n ++ '<' :: (a ++ ['>']) = [] := congrArg String.data hcon
      simp at this
    have hg2 : group2Of (a ++ ['>']) = some a := group2Of_append a [] hane hagt hanl
    have hmatch : regexGo [] (n ++ '<' :: (a ++ ['>'])) =
        some (g1TakenOf n, a) := by
      rw [regexGo_bracket n [] (a ++ ['>']) a hne hlt hnl hg2]
      rfl
    show (if String.mk (n ++ '<' :: (a ++ ['>'])) = "" then (("" : String), ("" : String))
      else
        match regexGo [] (n ++ '<' :: (a ++ ['>'])) with
        | some (g1, g2) => (String.mk (pyStrip g2), String.mk (stripQuotes (pyStrip g1)))
        | none => (pyStripStr (String.mk (n ++ '<' :: (a ++ ['>']))), "")) =
      (String.mk (pyStrip a), String.mk (stripQuotes (pyStrip n)))
    rw [if_neg hsne, hmatch]
    show (String.mk (pyStrip a), String.mk (stripQuotes (pyStrip (g1TakenOf n)))) =
      (String.mk (pyStrip a), String.mk (stripQuotes (pyStrip n)))
    rw [pyStrip_g1TakenOf]

/-- Witness for the amended claim C4, at a quoted display name with a
bracketed address, a bare address, and empty input. -/
theorem extract_email_and_name_behavior_witness :
    extract_email_and_name none = ("", "") ∧
    extract_email_and_name (some "jane@x.com") = (pyStripStr "jane@x.com", "") ∧
    extract_email_and_name
        (some (String.mk ("\"Jane Doe\" ".data ++ '<' :: ("jane@x.com".data ++ ['>'])))) =
      (String.mk (pyStrip "jane@x.com".data),
       String.mk (stripQuotes (pyStrip "\"Jane Doe\" ".data))) := by
  refine ⟨extract_email_and_name_behavior.1.1, ?_, ?_⟩
  · exact extract_email_and_name_behavior.2.2.1 "jane@x.com" (by decide)
  · exact extract_email_and_name_behavior.2.2.2 "\"Jane Doe\" ".data "jane@x.com".data
      (by decide) (by decide) (by decide) (by decide) (by decide) (by decide)

/-! ### Thread aggregation (claim C5) -/

theorem mem_insertOrd {le : α → α → Bool} (a x : α) (l : List α) :
    x ∈ insertOrd le a l ↔ x = a ∨ x ∈ l := by
  induction l with
  | nil => simp [insertOrd]
  | cons b t ih =>
    unfold insertOrd
    by_cases hle : le a b = true
    · simp [hle]
    · simp [hle, ih]
      tauto

theorem mem_sortOrd {le : α → α → Bool} (x : α) (l : List α) :
    x ∈ sortOrd le l ↔ x ∈ l := by
  induction l with
  | nil => simp [sortOrd]
  | cons a t ih =>
    unfold sortOrd
    rw [mem_insertOrd, ih]
    simp

theorem insertOrd_pairwise {le : α → α → Bool}
    (htot : ∀ a b, le a b = true ∨ le b a = true)
    (htrans : ∀ a b c, le a b = true → le b c = true → le a c = true)
    (a : α) (l : List α) (hl : l.Pairwise (fun x y => le x y = true)) :
    (insertOrd le a l).Pairwise (fun x y => le x y = true) := by
  induction l with
  | nil => simp [insertOrd]
  | cons b t ih =>
    rw [List.pairwise_cons] at hl
    unfold insertOrd
    by_cases hle : le a b = true
    · rw [if_pos hle]
      rw [List.pairwise_cons]
      refine ⟨?_, List.Pairwise.cons hl.1 hl.2⟩
      intro x hx
      rcases List.mem_cons.mp hx with rfl | hx
      · exact hle
      · exact htrans a b x hle (hl.1 x hx)
    · rw [if_neg hle]
      rw [List.pairwise_cons]
      refine ⟨?_, ih hl.2⟩
      intro x hx
      rcases (mem_insertOrd a x t).mp hx with he | hx
      · cases he
        rcases htot a b with h | h
        · exact absurd h hle
        · exact h
      · exact hl.1 x hx

theorem sortOrd_pairwise {le : α → α → Bool}
    (htot : ∀ a b, le a b = true ∨ le b a = true)
    (htrans : ∀ a b c, le a b = true → le b c = true → le a c = true)
    (l : List α) : (sortOrd le l).Pairwise (fun x y => le x y = true) := by
  induction l with
  | nil => simp [sortOrd]
  | cons a t ih => exact insertOrd_pairwise htot htrans a (sortOrd le t) ih

/-- Claim C5 counterexample: two messages in one conversation with equal
timestamps and internal ids 1 and 2 (stored in that order); the
aggregation picks id 1 — the first row in the date-descending order of
the underlying table, which the query leaves unspecified beyond the date —
not the highest internal id 2 required by the claim's tie-break. -/
theorem thread_tie_break_counterexample :
    ((get_threads_for_user
        [⟨1, "acct", "T", 10, "s1", "p1", "", "", []⟩,
         ⟨2, "acct", "T", 10, "s2", "p2", "", "", []⟩]
        ["acct"] "all" none 1 20).map (fun o => o.latest_email.id)) = [1] ∧
    ([1] : List Nat) ≠ [2] := by
  decide

/-- Claim C5 amended: `getThreads` groups the permission-filtered messages
by conversation id, computes each group's message count, maximum
timestamp and representative message (the head of the group under the
date-descending ordering, with ties left to the underlying row order — no
id tie-break), sorts the group list by latest timestamp descending, and
paginates the group list; on the two-conversation example — A with 3
messages (latest at t=30) and B with 1 message (latest at t=20) — it
returns A(count=3, latest=30) before B(count=1, latest=20), and with page
size 1, page 1 holds only A and page 2 only B. -/
theorem thread_aggregation_behavior :
    (get_threads_for_user
        [⟨4, "acct", "B", 20, "sB1", "pB1", "", "", []⟩,
         ⟨1, "acct", "A", 10, "sA1", "pA1", "", "", []⟩,
         ⟨2, "acct", "A", 20, "sA2", "pA2", "", "", []⟩,
         ⟨3, "acct", "A", 30, "sA3", "pA3", "", "", []⟩]
        ["acct"] "all" none 1 20 =
      [⟨"A", 3, ⟨3, "acct", "A", 30, "sA3", "pA3", "", "", []⟩, 30, "sA3", "pA3"⟩,
       ⟨"B", 1, ⟨4, "acct", "B", 20, "sB1", "pB1", "", "", []⟩, 20, "sB1", "pB1"⟩] ∧
      get_threads_for_user
        [⟨4, "acct", "B", 20, "sB1", "pB1", "", "", []⟩,
         ⟨1, "acct", "A", 10, "sA1", "pA1", "", "", []⟩,
         ⟨2, "acct", "A", 20, "sA2", "pA2", "", "", []⟩,
         ⟨3, "acct", "A", 30, "sA3", "pA3", "", "", []⟩]
        ["acct"] "all" none 1 1 =
      [⟨"A", 3, ⟨3, "acct", "A", 30, "sA3", "pA3", "", "", []⟩, 30, "sA3", "pA3"⟩] ∧
      get_threads_for_user
        [⟨4, "acct", "B", 20, "sB1", "pB1", "", "", []⟩,
         ⟨1, "acct", "A", 10, "sA1", "pA1", "", "", []⟩,
         ⟨2, "acct", "A", 20, "sA2", "pA2", "", "", []⟩,
         ⟨3, "acct", "A", 30, "sA3", "pA3", "", "", []⟩]
        ["acct"] "all" none 2 1 =
      [⟨"B", 1, ⟨4, "acct", "B", 20, "sB1", "pB1", "", "", []⟩, 20, "sB1", "pB1"⟩]) ∧
    (∀ msgs : List Msg, (threadAggregate msgs).Pairwise
      (fun x y => y.latest_date ≤ x.latest_date)) ∧
    (∀ (msgs : List Msg) (t : ThreadAgg), t ∈ threadAggregate msgs →
      t.message_count = (msgs.filter (fun m => m.thread_id = t.thread_id)).length ∧
      t.latest_date =
        (((msgs.filter (fun m => m.thread_id = t.thread_id)).map (·.date)).max?).getD 0 ∧
      t.latest_email_id =
        ((sortOrd (fun a b => b.date ≤ a.date)
          (msgs.filter (fun m => m.thread_id = t.thread_id))).head?).map (·.id)) := by
  refine ⟨by decide, ?_, ?_⟩
  · intro msgs
    have hp := @sortOrd_pairwise ThreadAgg
      (fun a b : ThreadAgg => decide (b.latest_date ≤ a.latest_date))
      (fun a b => by
        rcases Nat.le_total b.latest_date a.latest_date with h | h
        · left; simpa using h
        · right; simpa using h)
      (fun a b c hab hbc => by
        simp only [decide_eq_true_eq] at hab hbc ⊢
        exact Nat.le_trans hbc hab)
      ((msgs.map (·.thread_id)).foldl
        (fun acc x => if x ∈ acc then acc else acc ++ [x]) [] |>.map (fun t =>
          let inThread := msgs.filter (fun m => m.thread_id = t)
          ⟨t, inThread.length, ((inThread.map (·.date)).max?).getD 0,
            ((sortOrd (fun a b => b.date ≤ a.date) inThread).head?).map (·.id)⟩))
    refine List.Pairwise.imp ?_ hp
    intro x y h
    simpa using h
  · intro msgs t ht
    unfold threadAggregate at ht
    rw [mem_sortOrd] at ht
    obtain ⟨tid, _, rfl⟩ := List.mem_map.mp ht
    exact ⟨rfl, rfl, rfl⟩

/-- Witness for the amended claim C5: the sortedness and annotation facts
at a concrete message list (the aggregated row for thread `T` with two
dated messages). -/
theorem thread_aggregation_behavior_witness :
    (threadAggregate
        [⟨1, "acct", "T", 10, "s1", "p1", "", "", []⟩,
         ⟨2, "acct", "U", 30, "s2", "p2", "", "", []⟩]).Pairwise
      (fun x y => y.latest_date ≤ x.latest_date) ∧
    ((⟨"U", 1, 30, some 2⟩ : ThreadAgg).message_count =
        (([⟨1, "acct", "T", 10, "s1", "p1", "", "", []⟩,
           ⟨2, "acct", "U", 30, "s2", "p2", "", "", []⟩] : List Msg).filter
          (fun m => m.thread_id = (⟨"U", 1, 30, some 2⟩ : ThreadAgg).thread_id)).length) := by
  constructor
  · exact thread_aggregation_behavior.2.1
      [⟨1, "acct", "T", 10, "s1", "p1", "", "", []⟩,
       ⟨2, "acct", "U", 30, "s2", "p2", "", "", []⟩]
  · exact (thread_aggregation_behavior.2.2
      [⟨1, "acct", "T", 10, "s1", "p1", "", "", []⟩,
       ⟨2, "acct", "U", 30, "s2", "p2", "", "", []⟩]
      ⟨"U", 1, 30, some 2⟩ (by decide)).1

/-! ### Idempotent persistence (claim C1) -/

theorem find?_append_some {p : Contact → Bool} {l1 l2 : List Contact} {c : Contact}
    (h : l1.find? p = some c) : (l1 ++ l2).find? p = some c := by
  rw [List.find?_append, h]
  rfl

theorem find?_updateNameFirst (cs : List Contact) (a n : String) (c0 : Contact)
    (hfind : cs.find? (fun x => x.email = a) = some c0) :
    (updateNameFirst cs a n).find? (fun x => x.email = a) = some ⟨c0.email, n⟩ := by
  induction cs with
  | nil => simp at hfind
  | cons u rest ih =>
    rw [List.find?_cons] at hfind
    by_cases hu : u.email = a
    · simp only [hu, decide_True] at hfind
      have hu0 : u = c0 := by simpa using hfind
      subst hu0
      unfold updateNameFirst
      rw [if_pos hu]
      rw [List.find?_cons]
      simp [hu]
    · simp only [hu, decide_False] at hfind
      unfold updateNameFirst
      rw [if_neg hu]
      rw [List.find?_cons]
      simp only [hu, decide_False]
      exact ih hfind

theorem gocc_result_stable (cs : List Contact) (a n : String) (ha : a ≠ "") :
    ∃ c, ((get_or_create_contact cs a n).2).find? (fun x => x.email = a) = some c ∧
      (n = "" ∨ c.name ≠ "") := by
  unfold get_or_create_contact
  rw [if_neg ha]
  cases hf : cs.find? (fun x => x.email = a) with
  | none =>
    refine ⟨⟨a, n⟩, ?_, ?_⟩
    · show (cs ++ [(⟨a, n⟩ : Contact)]).find? (fun x => x.email = a) = some ⟨a, n⟩
      rw [List.find?_append, hf]
      simp [List.find?_cons]
    · by_cases hn : n = ""
      · exact Or.inl hn
      · exact Or.inr hn
  | some c0 =>
    show ∃ c, List.find? (fun x => decide (x.email = a))
        (if n ≠ "" ∧ c0.name = "" then ((some a : Option String), updateNameFirst cs a n)
         else (some a, cs)).2 = some c ∧ (n = "" ∨ c.name ≠ "")
    by_cases hcond : n ≠ "" ∧ c0.name = ""
    · rw [if_pos hcond]
      exact ⟨⟨c0.email, n⟩, find?_updateNameFirst cs a n c0 hf, Or.inr hcond.1⟩
    · rw [if_neg hcond]
      refine ⟨c0, hf, ?_⟩
      by_cases hn : n = ""
      · exact Or.inl hn
      · right
        intro hname
        exact hcond ⟨hn, hname⟩

theorem gocc_noop (cs : List Contact) (a n : String) (c : Contact) (ha : a ≠ "")
    (hfind : cs.find? (fun x => x.email = a) = some c)
    (hstab : n = "" ∨ c.name ≠ "") :
    get_or_create_contact cs a n = (some a, cs) := by
  unfold get_or_create_contact
  rw [if_neg ha, hfind]
  show (if n ≠ "" ∧ c.name = "" then ((some a : Option String), updateNameFirst cs a n)
    else (some a, cs)) = (some a, cs)
  rw [if_neg (by
    intro hcon
    rcases hstab with h | h
    · exact hcon.1 h
    · exact h hcon.2)]

theorem gocc_empty_name (cs : List Contact) (a : String) :
    (get_or_create_contact cs a "").2 = cs ∨
    (get_or_create_contact cs a "").2 = cs ++ [⟨a, ""⟩] := by
  unfold get_or_create_contact
  by_cases ha : a = ""
  · left
    rw [if_pos ha]
  · rw [if_neg ha]
    cases hf : cs.find? (fun c => c.email = a) with
    | none => right; rfl
    | some c0 =>
      left
      show (if ("" : String) ≠ "" ∧ c0.name = "" then ((some a : Option String), updateNameFirst cs a "")
        else (some a, cs)).2 = cs
      rw [if_neg (by intro hcon; exact hcon.1 rfl)]

theorem resolveRecipients_preserves_find (cs : List Contact) (addrs : List String)
    (a : String) (c : Contact)
    (hfind : cs.find? (fun x => x.email = a) = some c) :
    ((resolveRecipients cs addrs).2).find? (fun x => x.email = a) = some c := by
  induction addrs generalizing cs with
  | nil => exact hfind
  | cons b rest ih =>
    show ((resolveRecipients (get_or_create_contact cs b "").2 rest).2).find? _ = some c
    rcases gocc_empty_name cs b with he | he
    · rw [he]
      exact ih cs hfind
    · rw [he]
      exact ih _ (find?_append_some hfind)

theorem resolveRecipients_creates (cs : List Contact) (addrs : List String)
    (a : String) (ha : a ∈ addrs) (hne : a ≠ "") :
    ∃ c, ((resolveRecipients cs addrs).2).find? (fun x => x.email = a) = some c := by
  induction addrs generalizing cs with
  | nil => simp at ha
  | cons b rest ih =>
    show ∃ c, ((resolveRecipients (get_or_create_contact cs b "").2 rest).2).find? _ = some c
    rcases List.mem_cons.mp ha with rfl | ha2
    · cases hf : cs.find? (fun x => x.email = a) with
      | some c0 =>
        rcases gocc_empty_name cs a with he | he
        · rw [he]
          exact ⟨c0, resolveRecipients_preserves_find cs rest a c0 hf⟩
        · rw [he]
          exact ⟨c0, resolveRecipients_preserves_find _ rest a c0 (find?_append_some hf)⟩
      | none =>
        rcases gocc_empty_name cs a with he | he
        · rw [he]
          -- impossible: a ≠ "" and not found means the contact was appended
          exfalso
          have : (get_or_create_contact cs a "").2 = cs ++ [⟨a, ""⟩] := by
            unfold get_or_create_contact
            rw [if_neg hne, hf]
          rw [this] at he
          have hlen := congrArg List.length he
          simp at hlen
        · rw [he]
          have hf2 : (cs ++ [(⟨a, ""⟩ : Contact)]).find? (fun x => x.email = a) =
              some ⟨a, ""⟩ := by
            rw [List.find?_append, hf]
            simp [List.find?_cons]
          exact ⟨⟨a, ""⟩, resolveRecipients_preserves_find _ rest a _ hf2⟩
    · exact ih _ ha2


theorem resolveRecipients_noop (cs : List Contact) (addrs : List String)
    (hall : ∀ a ∈ addrs, a = "" ∨ ∃ c, cs.find? (fun x => x.email = a) = some c) :
    (resolveRecipients cs addrs).2 = cs := by
  induction addrs with
  | nil => rfl
  | cons b rest ih =>
    show (resolveRecipients (get_or_create_contact cs b "").2 rest).2 = cs
    rcases hall b (List.mem_cons_self _ _) with hb | ⟨c, hc⟩
    · have : get_or_create_contact cs b "" = (none, cs) := by
        unfold get_or_create_contact
        rw [if_pos hb]
      rw [this]
      exact ih (fun a haa => hall a (List.mem_cons_of_mem _ haa))
    · by_cases hb : b = ""
      · have : get_or_create_contact cs b "" = (none, cs) := by
          unfold get_or_create_contact
          rw [if_pos hb]
        rw [this]
        exact ih (fun a haa => hall a (List.mem_cons_of_mem _ haa))
      · rw [gocc_noop cs b "" c hb hc (Or.inl rfl)]
        exact ih (fun a haa => hall a (List.mem_cons_of_mem _ haa))

theorem pyDedup_nodup (l : List String) : (pyDedup l).Nodup := by
  have hgen : ∀ (l : List String) (acc : List String), acc.Nodup →
      (l.foldl (fun acc x => if x ∈ acc then acc else acc ++ [x]) acc).Nodup := by
    intro l
    induction l with
    | nil => intro acc h; exact h
    | cons x rest ih =>
      intro acc hacc
      show (rest.foldl _ (if x ∈ acc then acc else acc ++ [x])).Nodup
      by_cases hx : x ∈ acc
      · rw [if_pos hx]
        exact ih acc hacc
      · rw [if_neg hx]
        refine ih _ ?_
        rw [List.nodup_append]
        exact ⟨hacc, List.nodup_singleton x, by simp [hx]⟩
  exact hgen l [] List.nodup_nil

theorem ingestAttachments_cons (atts : List AttachmentRow) (gid : String)
    (dl : String → String → Option (List Nat)) (m : AttachmentMeta)
    (rest : List AttachmentMeta) :
    ingestAttachments atts gid dl (m :: rest) =
      ingestAttachments
        (if atts.any (fun a =>
            a.email_gmail_id = gid ∧ a.gmail_attachment_id = m.attachment_id) then atts
         else
           match dl gid m.attachment_id with
           | some _bytes =>
             atts ++ [⟨gid, m.attachment_id, m.filename, m.mime_type, m.size⟩]
           | none => atts) gid dl rest := rfl

theorem ingestAttachments_append (atts : List AttachmentRow) (gid : String)
    (dl : String → String → Option (List Nat)) (ms : List AttachmentMeta) :
    ∃ ext, ingestAttachments atts gid dl ms = atts ++ ext := by
  induction ms generalizing atts with
  | nil => exact ⟨[], by simp [ingestAttachments]⟩
  | cons m rest ih =>
    rw [ingestAttachments_cons]
    by_cases hal : atts.any (fun a =>
        a.email_gmail_id = gid ∧ a.gmail_attachment_id = m.attachment_id) = true
    · rw [if_pos hal]
      exact ih atts
    · rw [if_neg hal]
      cases hdl : dl gid m.attachment_id with
      | none =>
        show ∃ ext, ingestAttachments atts gid dl rest = atts ++ ext
        exact ih atts
      | some bs =>
        show ∃ ext, ingestAttachments
          (atts ++ [⟨gid, m.attachment_id, m.filename, m.mime_type, m.size⟩])
          gid dl rest = atts ++ ext
        obtain ⟨ext, hext⟩ := ih
          (atts ++ [⟨gid, m.attachment_id, m.filename, m.mime_type, m.size⟩])
        exact ⟨⟨gid, m.attachment_id, m.filename, m.mime_type, m.size⟩ :: ext, by
          rw [hext, List.append_assoc]
          rfl⟩

theorem ingestAttachments_done (atts : List AttachmentRow) (gid : String)
    (dl : String → String → Option (List Nat)) (ms : List AttachmentMeta) :
    ∀ m ∈ ms, ((ingestAttachments atts gid dl ms).any
        (fun a => a.email_gmail_id = gid ∧ a.gmail_attachment_id = m.attachment_id)) = true ∨
      dl gid m.attachment_id = none := by
  induction ms generalizing atts with
  | nil => intro m hm; simp at hm
  | cons m0 rest ih =>
    intro m hm
    rw [ingestAttachments_cons]
    rcases List.mem_cons.mp hm with rfl | hm2
    · by_cases hal : atts.any (fun a =>
          a.email_gmail_id = gid ∧ a.gmail_attachment_id = m.attachment_id) = true
      · rw [if_pos hal]
        obtain ⟨ext, hext⟩ := ingestAttachments_append atts gid dl rest
        left
        rw [hext, List.any_append, hal]
        rfl
      · rw [if_neg hal]
        cases hdl : dl gid m.attachment_id with
        | none => right; rfl
        | some bs =>
          left
          show (ingestAttachments
            (atts ++ [⟨gid, m.attachment_id, m.filename, m.mime_type, m.size⟩])
            gid dl rest).any _ = true
          obtain ⟨ext, hext⟩ := ingestAttachments_append
            (atts ++ [⟨gid, m.attachment_id, m.filename, m.mime_type, m.size⟩]) gid dl rest
          rw [hext, List.any_append, List.any_append]
          simp
    · exact ih _ m hm2

theorem ingestAttachments_noop (atts : List AttachmentRow) (gid : String)
    (dl : String → String → Option (List Nat)) (ms : List AttachmentMeta)
    (hall : ∀ m ∈ ms, (atts.any (fun a =>
        a.email_gmail_id = gid ∧ a.gmail_attachment_id = m.attachment_id)) = true ∨
      dl gid m.attachment_id = none) :
    ingestAttachments atts gid dl ms = atts := by
  induction ms with
  | nil => rfl
  | cons m rest ih =>
    rw [ingestAttachments_cons]
    by_cases hal : atts.any (fun a =>
        a.email_gmail_id = gid ∧ a.gmail_attachment_id = m.attachment_id) = true
    · rw [if_pos hal]
      exact ih (fun m2 hm2 => hall m2 (List.mem_cons_of_mem _ hm2))
    · rw [if_neg hal]
      rcases hall m (List.mem_cons_self _ _) with h | hdl
      · exact absurd h hal
      · rw [hdl]
        show ingestAttachments atts gid dl rest = atts
        exact ih (fun m2 hm2 => hall m2 (List.mem_cons_of_mem _ hm2))

theorem ingestAttachments_nodup (atts : List AttachmentRow) (gid : String)
    (dl : String → String → Option (List Nat)) (ms : List AttachmentMeta)
    (h : ((atts.filter (fun a => a.email_gmail_id = gid)).map
      (fun a => a.gmail_attachment_id)).Nodup) :
    (((ingestAttachments atts gid dl ms).filter (fun a => a.email_gmail_id = gid)).map
      (fun a => a.gmail_attachment_id)).Nodup := by
  induction ms generalizing atts with
  | nil => exact h
  | cons m rest ih =>
    rw [ingestAttachments_cons]
    by_cases hal : atts.any (fun a =>
        a.email_gmail_id = gid ∧ a.gmail_attachment_id = m.attachment_id) = true
    · rw [if_pos hal]
      exact ih _ h
    · rw [if_neg hal]
      cases hdl : dl gid m.attachment_id with
      | none =>
        show (((ingestAttachments atts gid dl rest).filter _).map _).Nodup
        exact ih _ h
      | some bs =>
        show (((ingestAttachments
          (atts ++ [⟨gid, m.attachment_id, m.filename, m.mime_type, m.size⟩])
          gid dl rest).filter _).map _).Nodup
        refine ih _ ?_
        rw [List.filter_append, List.map_append]
        have hrow : List.filter (fun a => decide (a.email_gmail_id = gid))
            [(⟨gid, m.attachment_id, m.filename, m.mime_type, m.size⟩ : AttachmentRow)] =
            [⟨gid, m.attachment_id, m.filename, m.mime_type, m.size⟩] := by
          simp
        rw [hrow]
        rw [List.nodup_append]
        refine ⟨h, List.nodup_singleton _, ?_⟩
        intro x hx
        simp only [List.mem_map, List.mem_filter] at hx
        obtain ⟨a, ⟨hamem, hagid⟩, haid⟩ := hx
        simp only [List.map_cons, List.map_nil, List.mem_cons, List.not_mem_nil, or_false]
        intro hxeq
        apply hal
        rw [List.any_eq_true]
        refine ⟨a, hamem, ?_⟩
        simp only [decide_eq_true_eq] at hagid
        rw [← haid] at hxeq
        simp [hagid, hxeq]

theorem map_upsert_id (l : List EmailRow) (gid : String) (row : EmailRow)
    (h : ∀ e ∈ l, e.gmail_id ≠ gid) :
    l.map (fun e => if e.gmail_id = gid then row else e) = l := by
  induction l with
  | nil => rfl
  | cons e rest ih =>
    rw [List.map_cons, if_neg (h e (List.mem_cons_self _ _))]
    rw [ih (fun x hx => h x (List.mem_cons_of_mem _ hx))]

theorem save_contacts_eq (db : DB) (d : EmailData)
    (service : Option (String → String → Option (List Nat))) :
    (save_email_to_db db d service).1.contacts =
      (resolveRecipients
        (get_or_create_contact db.contacts d.sender_email d.sender_name).2
        (pyDedup (d.recipient_list ++ d.cc_list ++ d.bcc_list))).2 := rfl

theorem save_tokens_eq (db : DB) (d : EmailData)
    (service : Option (String → String → Option (List Nat))) :
    (save_email_to_db db d service).1.tokens = db.tokens := rfl

theorem save_emails_eq (db : DB) (d : EmailData)
    (service : Option (String → String → Option (List Nat))) :
    (save_email_to_db db d service).1.emails =
      if db.emails.any (fun e => e.gmail_id = d.gmail_id) then
        db.emails.map (fun e => if e.gmail_id = d.gmail_id then
          rowOf d (get_or_create_contact db.contacts d.sender_email d.sender_name).1
            (db.tokens.find? (fun t => t = d.account_email)) else e)
      else db.emails ++
        [rowOf d (get_or_create_contact db.contacts d.sender_email d.sender_name).1
          (db.tokens.find? (fun t => t = d.account_email))] := rfl

theorem save_attachments_eq (db : DB) (d : EmailData)
    (service : Option (String → String → Option (List Nat))) :
    (save_email_to_db db d service).1.attachments =
      match service with
      | some dl => ingestAttachments db.attachments d.gmail_id dl d.attachments_metadata
      | none => db.attachments := rfl

theorem save_created_eq (db : DB) (d : EmailData)
    (service : Option (String → String → Option (List Nat))) :
    (save_email_to_db db d service).2 =
      !(db.emails.any (fun e => e.gmail_id = d.gmail_id)) := rfl

theorem rowOf_gmail_id (d : EmailData) (k l : Option String) :
    (rowOf d k l).gmail_id = d.gmail_id := rfl

/-- Claim C1: ingesting the same parsed message twice into a store that
does not yet hold it produces exactly one email row keyed by the provider
message id; the second call is a complete no-op on the database (so every
field value is identical afterwards — audit timestamps are not modelled)
and reports the row as not newly created; and the message's recipient
links and attachment rows carry no duplicates. -/
theorem save_email_idempotent (db : DB) (d : EmailData)
    (service : Option (String → String → Option (List Nat)))
    (h1 : ∀ e ∈ db.emails, e.gmail_id ≠ d.gmail_id)
    (h2 : ∀ pr ∈ db.recipients, pr.1 ≠ d.gmail_id)
    (h3 : ∀ a ∈ db.attachments, a.email_gmail_id ≠ d.gmail_id) :
    (((save_email_to_db db d service).1.emails.filter
      (fun e => e.gmail_id = d.gmail_id)).length = 1) ∧
    save_email_to_db (save_email_to_db db d service).1 d service =
      ((save_email_to_db db d service).1, false) ∧
    ((((save_email_to_db db d service).1.recipients.filter
      (fun pr => pr.1 = d.gmail_id)).map Prod.snd).Nodup) ∧
    ((((save_email_to_db db d service).1.attachments.filter
      (fun a => a.email_gmail_id = d.gmail_id)).map
        (fun a => a.gmail_attachment_id)).Nodup) := by
  have hpres : db.emails.any (fun e => e.gmail_id = d.gmail_id) = false := by
    rw [List.any_eq_false]
    intro e he
    simp [h1 e he]
  have hemails1 : (save_email_to_db db d service).1.emails =
      db.emails ++
        [rowOf d (get_or_create_contact db.contacts d.sender_email d.sender_name).1
          (db.tokens.find? (fun t => t = d.account_email))] := by
    rw [save_emails_eq, hpres]
    rw [if_neg (by simp)]
  have hp2 : (save_email_to_db db d service).1.emails.any
      (fun e => e.gmail_id = d.gmail_id) = true := by
    rw [hemails1, List.any_append]
    simp [rowOf_gmail_id]
  have hsender : get_or_create_contact (save_email_to_db db d service).1.contacts
      d.sender_email d.sender_name =
      ((get_or_create_contact db.contacts d.sender_email d.sender_name).1,
       (save_email_to_db db d service).1.contacts) := by
    rw [save_contacts_eq]
    by_cases hse : d.sender_email = ""
    · rw [get_or_create_contact_fst, if_pos hse]
      unfold get_or_create_contact
      rw [if_pos hse]
    · obtain ⟨c, hc1, hstab⟩ :=
        gocc_result_stable db.contacts d.sender_email d.sender_name hse
      have hc2 := resolveRecipients_preserves_find
        (get_or_create_contact db.contacts d.sender_email d.sender_name).2
        (pyDedup (d.recipient_list ++ d.cc_list ++ d.bcc_list)) d.sender_email c hc1
      rw [gocc_noop _ _ _ c hse hc2 hstab]
      rw [get_or_create_contact_fst, if_neg hse]
  have hrecnoop : (resolveRecipients (save_email_to_db db d service).1.contacts
      (pyDedup (d.recipient_list ++ d.cc_list ++ d.bcc_list))).2 =
      (save_email_to_db db d service).1.contacts := by
    rw [save_contacts_eq]
    apply resolveRecipients_noop
    intro a ha
    by_cases hae : a = ""
    · exact Or.inl hae
    · exact Or.inr (resolveRecipients_creates _ _ a ha hae)
  refine ⟨?_, ?_, ?_, ?_⟩
  · rw [hemails1, List.filter_append]
    rw [List.filter_eq_nil.mpr (by intro e he; simp [h1 e he])]
    simp [rowOf_gmail_id]
  · refine Prod.ext ?_ ?_
    · apply DB.ext
      · rw [save_contacts_eq (save_email_to_db db d service).1 d service]
        rw [show (get_or_create_contact (save_email_to_db db d service).1.contacts
            d.sender_email d.sender_name).2 = (save_email_to_db db d service).1.contacts from
          congrArg Prod.snd hsender]
        exact hrecnoop
      · rw [save_emails_eq (save_email_to_db db d service).1 d service]
        rw [hp2, if_pos rfl]
        simp only [congrArg Prod.fst hsender, save_tokens_eq]
        rw [hemails1, List.map_append, map_upsert_id db.emails d.gmail_id _ h1]
        simp [rowOf_gmail_id]
      · rw [save_recipients_characterization (save_email_to_db db d service).1 d service]
        by_cases hu : d.recipient_list ++ d.cc_list ++ d.bcc_list = []
        · rw [if_pos hu]
        · rw [if_neg hu]
          have hfs : List.filter (fun pr => decide (pr.1 ≠ d.gmail_id)) db.recipients =
              db.recipients :=
            List.filter_eq_self.mpr (by intro pr hpr; simp [h2 pr hpr])
          have hr1 : (save_email_to_db db d service).1.recipients =
              db.recipients ++
                ((pyDedup (d.recipient_list ++ d.cc_list ++ d.bcc_list)).filter
                  (· ≠ "")).map (fun k => (d.gmail_id, k)) := by
            rw [save_recipients_characterization db d service, if_neg hu]
            rw [hfs]
          have hfn : List.filter (fun pr => decide (pr.1 ≠ d.gmail_id))
              (((pyDedup (d.recipient_list ++ d.cc_list ++ d.bcc_list)).filter
                (· ≠ "")).map (fun k => (d.gmail_id, k))) = [] :=
            List.filter_eq_nil.mpr (by
              intro pr hpr
              obtain ⟨k, _, rfl⟩ := List.mem_map.mp hpr
              simp)
          rw [hr1, List.filter_append, hfs, hfn]
          simp
      · cases service with
        | none => rfl
        | some dl =>
          show ingestAttachments (save_email_to_db db d (some dl)).1.attachments
            d.gmail_id dl d.attachments_metadata =
            (save_email_to_db db d (some dl)).1.attachments
          apply ingestAttachments_noop
          intro m hm
          exact ingestAttachments_done db.attachments d.gmail_id dl
            d.attachments_metadata m hm
      · rw [save_tokens_eq, save_tokens_eq]
    · rw [save_created_eq, hp2]
      rfl
  · rw [save_recipients_characterization db d service]
    by_cases hu : d.recipient_list ++ d.cc_list ++ d.bcc_list = []
    · rw [if_pos hu]
      rw [List.filter_eq_nil.mpr (by intro pr hpr; simp [h2 pr hpr])]
      simp
    · rw [if_neg hu, List.filter_append]
      have hfn : List.filter (fun pr => decide (pr.1 = d.gmail_id))
          (List.filter (fun pr => decide (pr.1 ≠ d.gmail_id)) db.recipients) = [] :=
        List.filter_eq_nil.mpr (by
          intro pr hpr
          have := (List.mem_filter.mp hpr).1
          simp [h2 pr this])
      have hfs : List.filter (fun pr => decide (pr.1 = d.gmail_id))
          (((pyDedup (d.recipient_list ++ d.cc_list ++ d.bcc_list)).filter
            (· ≠ "")).map (fun k => (d.gmail_id, k))) =
          ((pyDedup (d.recipient_list ++ d.cc_list ++ d.bcc_list)).filter
            (· ≠ "")).map (fun k => (d.gmail_id, k)) :=
        List.filter_eq_self.mpr (by
          intro pr hpr
          obtain ⟨k, _, rfl⟩ := List.mem_map.mp hpr
          simp)
      rw [hfn, hfs, List.nil_append, List.map_map]
      rw [show (Prod.snd ∘ fun k => (d.gmail_id, k)) = id from rfl, List.map_id]
      exact List.Nodup.filter _ (pyDedup_nodup _)
  · have hbase : ((db.attachments.filter (fun a => a.email_gmail_id = d.gmail_id)).map
        (fun a => a.gmail_attachment_id)).Nodup := by
      rw [List.filter_eq_nil.mpr (by intro a ha; simp [h3 a ha])]
      simp
    cases service with
    | none => exact hbase
    | some dl =>
      show (((ingestAttachments db.attachments d.gmail_id dl
        d.attachments_metadata).filter (fun a => a.email_gmail_id = d.gmail_id)).map
          (fun a => a.gmail_attachment_id)).Nodup
      exact ingestAttachments_nodup db.attachments d.gmail_id dl
        d.attachments_metadata hbase

/-- Witness for claim C1 at a concrete fresh store and message. -/
theorem save_email_idempotent_witness :
    (((save_email_to_db ⟨[], [], [], [], ["acct"]⟩
        ⟨"g1", "t1", "s", "s@x", "S", ["a@x", "b@x", "a@x"], ["b@x"], [], 5, "sn",
          "bt", "bh", ["INBOX"], true, false, [], "acct"⟩ none).1.emails.filter
      (fun e => e.gmail_id = "g1")).length = 1) ∧
    save_email_to_db
        (save_email_to_db ⟨[], [], [], [], ["acct"]⟩
          ⟨"g1", "t1", "s", "s@x", "S", ["a@x", "b@x", "a@x"], ["b@x"], [], 5, "sn",
            "bt", "bh", ["INBOX"], true, false, [], "acct"⟩ none).1
        ⟨"g1", "t1", "s", "s@x", "S", ["a@x", "b@x", "a@x"], ["b@x"], [], 5, "sn",
          "bt", "bh", ["INBOX"], true, false, [], "acct"⟩ none =
      ((save_email_to_db ⟨[], [], [], [], ["acct"]⟩
        ⟨"g1", "t1", "s", "s@x", "S", ["a@x", "b@x", "a@x"], ["b@x"], [], 5, "sn",
          "bt", "bh", ["INBOX"], true, false, [], "acct"⟩ none).1, false) := by
  have h := save_email_idempotent ⟨[], [], [], [], ["acct"]⟩
    ⟨"g1", "t1", "s", "s@x", "S", ["a@x", "b@x", "a@x"], ["b@x"], [], 5, "sn",
      "bt", "bh", ["INBOX"], true, false, [], "acct"⟩ none
    (by decide) (by decide) (by decide)
  exact ⟨h.1, h.2.1⟩

end GmailApp
